import Mathlib

/-
Verification of the delegate-vote transaction core (src/tx/delegatetx.cpp):
`CDelegateVoteTx::CheckTx` and `CDelegateVoteTx::ExecuteTx`, together with the
collaborating account / delegate-index / receipt stores.

The shallow embedding below translates the source file directly.  Functions that
the source file calls but whose bodies live outside the provided sources
(`GenerateRegID`, `CAccount::OperateBalance`, `CAccount::ProcessDelegateVotes`,
`CAccount::StakeVoteBcoins`, the `IMPLEMENT_CHECK_TX_*` macros, the store
operations of `CCacheWrapper` and the feature-fork version table) are modelled
from the specification; each such definition carries a doc comment saying so.
Machine integers (uint64 amounts) are modelled as Nat; the specification
constrains every amount by MaxCoinMoney, far below 2^64, and defines the
unstake update as a truncated subtraction, so no modular wrap is involved.
-/

namespace WaykiChain

/-- Account key (the 160-bit address `CKeyID`), modelled abstractly as Nat. -/
abbrev CKeyID := Nat

/-- A public key: abstract key material together with the cached outcome of the
elliptic-curve point validity check `IsFullyValid`. -/
structure CPubKey where
  keyBytes : Nat
  fullyValid : Bool
deriving DecidableEq, Repr

/-- Modelled from the spec: `CPubKey::GetKeyId`, the key-derived address.  The
derivation is an injective hash of the key bytes, modelled as the identity on
the abstract key material. -/
def CPubKey.GetKeyId (pk : CPubKey) : CKeyID := pk.keyBytes

/-- The elliptic-curve validity check on a raw public key, an external
cryptographic primitive; its outcome is carried by the key value. -/
def CPubKey.IsFullyValid (pk : CPubKey) : Bool := pk.fullyValid

/-- A registered short id, assigned from the block height and the transaction
index at registration time. -/
structure CRegID where
  regHeight : Nat
  regIndex : Nat
deriving DecidableEq, Repr

/-- Modelled from the spec: a regid is empty (account not yet registered) when
both components are zero. -/
def CRegID.IsEmpty (r : CRegID) : Bool := r.regHeight == 0 && r.regIndex == 0

/-- The user-identifier tagged union `CUserID`: a raw public key, a registered
id, or one of the other variants (address, nick id, null), which the delegate
vote transaction never accepts. -/
inductive CUserID where
  | pubKey (pk : CPubKey)
  | regID (rid : CRegID)
  | otherUid
deriving DecidableEq, Repr

/-- Vote operation code: `ADD_BCOIN` stakes, `MINUS_BCOIN` unstakes, and
`NULL_VOTE` is the invalid default. -/
inductive VoteType where
  | ADD_BCOIN
  | MINUS_BCOIN
  | NULL_VOTE
deriving DecidableEq, Repr

/-- One candidate vote of the transaction: operation, candidate identifier and
vote weight (`GetVotedBcoins`). -/
structure CCandidateVote where
  voteType : VoteType
  candidateUid : CUserID
  votedBcoins : Nat
deriving DecidableEq, Repr

/-- One entry of a voter's persisted vote list: candidate identifier and the
currently staked weight. -/
structure CCandidateReceivedVote where
  candidateUid : CUserID
  votedBcoins : Nat
deriving DecidableEq, Repr

/-- The account record: stable key, registered id (possibly empty), owner
public key, free balance of the primary asset, and the received vote weight. -/
structure CAccount where
  keyid : CKeyID
  regid : CRegID
  owner_pubkey : CPubKey
  free_bcoins : Nat
  received_votes : Nat
deriving DecidableEq, Repr

/-- Modelled from the spec: an account has a registered owner public key when
its stored owner key is a fully valid key. -/
def CAccount.HaveOwnerPubKey (a : CAccount) : Bool := a.owner_pubkey.fullyValid

/-- Effect kind of a receipt.  The fee-debit kind exists in the receipt
taxonomy of the spec; which kinds actually reach the stored batch is one of the
verified questions. -/
inductive ReceiptKind where
  | feeDebit
  | stakeCredit
  | stakeDebit
deriving DecidableEq, Repr

/-- A structured effect record. -/
structure CReceipt where
  kind : ReceiptKind
  account : CKeyID
  amount : Nat
deriving DecidableEq, Repr

/-- Association-list lookup: value of the first entry with the given key. -/
def alistGet {α β : Type} [DecidableEq α] : List (α × β) → α → Option β
  | [], _ => none
  | (k₁, v₁) :: t, k => if k = k₁ then some v₁ else alistGet t k

/-- Association-list update: replace the first entry with the given key, or
append a fresh entry when the key is absent. -/
def alistSet {α β : Type} [DecidableEq α] : List (α × β) → α → β → List (α × β)
  | [], k, v => [(k, v)]
  | (k₁, v₁) :: t, k, v => if k = k₁ then (k, v) :: t else (k₁, v₁) :: alistSet t k v

/-- Modelled from the spec: the mutable state visible to the transaction — the
account store (keyed by account key, with the regid-to-key side index used to
resolve registered ids), the per-voter vote lists, the delegate ranking index
as a set of (weight, regid) entries, and the receipt sink keyed by transaction
hash. -/
structure CCacheWrapper where
  accounts : List (CKeyID × CAccount)
  regid2keyid : List (CRegID × CKeyID)
  voterVotes : List (CRegID × List CCandidateReceivedVote)
  delegateIndex : List (Nat × CRegID)
  txReceipts : List (Nat × List CReceipt)
deriving DecidableEq, Repr

/-- Modelled from the spec: account lookup by registered id goes through the
regid-to-key side index. -/
def GetAccountByRegID (cw : CCacheWrapper) (rid : CRegID) : Option CAccount :=
  (alistGet cw.regid2keyid rid).bind (alistGet cw.accounts)

/-- Modelled from the spec: `CAccountDBCache::GetAccount` — resolve a user
identifier to the stored account record; identifiers of other kinds resolve to
nothing. -/
def GetAccount (cw : CCacheWrapper) (uid : CUserID) : Option CAccount :=
  match uid with
  | CUserID.pubKey pk => alistGet cw.accounts pk.GetKeyId
  | CUserID.regID rid => GetAccountByRegID cw rid
  | CUserID.otherUid => none

/-- Modelled from the spec: `CAccountDBCache::SaveAccount` — persist the record
under its account key and, when the account carries a nonempty registered id,
record the id-to-key mapping (this makes the lazily assigned regid visible
after the save). -/
def SaveAccount (cw : CCacheWrapper) (a : CAccount) : CCacheWrapper :=
  { cw with
    accounts := alistSet cw.accounts a.keyid a
    regid2keyid :=
      if a.regid.IsEmpty then cw.regid2keyid
      else alistSet cw.regid2keyid a.regid a.keyid }

/-- Modelled from the spec: `CDelegateDBCache::GetCandidateVotes` — the current
vote list of a voter, empty if none has been stored. -/
def GetCandidateVotes (cw : CCacheWrapper) (rid : CRegID) : List CCandidateReceivedVote :=
  (alistGet cw.voterVotes rid).getD []

/-- Modelled from the spec: `CDelegateDBCache::SetCandidateVotes`. -/
def SetCandidateVotes (cw : CCacheWrapper) (rid : CRegID)
    (l : List CCandidateReceivedVote) : CCacheWrapper :=
  { cw with voterVotes := alistSet cw.voterVotes rid l }

/-- Insert an entry into the delegate index (set semantics). -/
def indexInsert (idx : List (Nat × CRegID)) (e : Nat × CRegID) : List (Nat × CRegID) :=
  if e ∈ idx then idx else e :: idx

/-- Remove an entry from the delegate index (set semantics). -/
def indexErase (idx : List (Nat × CRegID)) (e : Nat × CRegID) : List (Nat × CRegID) :=
  idx.filter (fun x => decide (x ≠ e))

/-- Modelled from the spec: `CDelegateDBCache::SetDelegateVotes` — insert the
(weight, key) entry into the ranking index. -/
def SetDelegateVotes (cw : CCacheWrapper) (rid : CRegID) (votes : Nat) : CCacheWrapper :=
  { cw with delegateIndex := indexInsert cw.delegateIndex (votes, rid) }

/-- Modelled from the spec: `CDelegateDBCache::EraseDelegateVotes` — remove the
(weight, key) entry from the ranking index. -/
def EraseDelegateVotes (cw : CCacheWrapper) (rid : CRegID) (votes : Nat) : CCacheWrapper :=
  { cw with delegateIndex := indexErase cw.delegateIndex (votes, rid) }

/-- Modelled from the spec: `CTxReceiptDBCache::SetTxReceipts` — append the
receipt batch under the transaction hash.  The first component reports whether
the store succeeded; on failure the sink is left unchanged. -/
def SetTxReceipts (ok : Bool) (cw : CCacheWrapper) (hash : Nat)
    (receipts : List CReceipt) : Bool × CCacheWrapper :=
  if ok then (true, { cw with txReceipts := alistSet cw.txReceipts hash receipts })
  else (false, cw)

/-- Modelled from the spec: the feature-fork protocol versions.  The spec
speaks of strong authentication for `MAJOR_VER_R2` or later, so the version
space contains a version after R2. -/
inductive FeatureVersion where
  | MAJOR_VER_R1
  | MAJOR_VER_R2
  | MAJOR_VER_R3
deriving DecidableEq, Repr

/-- External collaborators of the validator, passed as explicit parameters:
the height-to-feature-version table, the fee-policy check of the
`IMPLEMENT_CHECK_TX_FEE` macro, the black-box signature verifier of the
`IMPLEMENT_CHECK_TX_SIGNATURE` macro, and the protocol constants
`GetMaxVoteCandidateNum` and `GetBaseCoinMaxMoney`.  All are modelled from the
spec, which treats them as external interfaces. -/
structure Env where
  GetFeatureForkVersion : Nat → FeatureVersion
  feeOk : Nat → Bool
  sigVerify : CPubKey → Bool
  maxVoteCandidateNum : Nat
  maxCoinMoney : Nat

/-- The delegate vote transaction: sender identifier, fee, candidate vote list
and the transaction hash (`GetHash`), modelled abstractly. -/
structure CDelegateVoteTx where
  txUid : CUserID
  llFees : Nat
  candidateVotes : List CCandidateVote
  txHash : Nat
deriving DecidableEq, Repr

/-- Outcome of `CheckTx`: accepted, rejected through `CValidationState::DoS`
(which records a misbehavior score and a rejection reason code), or rejected
through a bare `return ERRORMSG(...)` = false, which records neither. -/
inductive CheckResult where
  | accepted
  | dos (score : Nat) (reason : String)
  | failed
deriving DecidableEq, Repr

/-- True when the sender identifier is typed as a raw public key whose curve
point is invalid (the condition of line 27 of the source). -/
def pubKeyTypeInvalid (uid : CUserID) : Bool :=
  match uid with
  | CUserID.pubKey pk => !pk.IsFullyValid
  | _ => false

/-- The per-candidate loop of `CheckTx` (source lines 44-67): for each vote it
checks the identifier kind, the weight range (a bare ERRORMSG return), the
existence of the candidate account, inserts the resolved canonical key into
the duplicate-detection set, and under `MAJOR_VER_R2` requires a registered
owner key.  Returns the first failure, or the accumulated key set. -/
def checkVotesLoop (env : Env) (ver : FeatureVersion) (cw : CCacheWrapper) :
    List CCandidateVote → Finset CKeyID → CheckResult ⊕ Finset CKeyID
  | [], keyIds => Sum.inr keyIds
  | vote :: rest, keyIds =>
    if vote.candidateUid = CUserID.otherUid then
      Sum.inl (CheckResult.dos 100 "bad-txuid-type")
    else if vote.votedBcoins == 0 || decide (env.maxCoinMoney < vote.votedBcoins) then
      Sum.inl CheckResult.failed
    else
      match GetAccount cw vote.candidateUid with
      | none => Sum.inl (CheckResult.dos 100 "bad-read-accountdb")
      | some account =>
        let keyIds₁ :=
          match vote.candidateUid with
          | CUserID.pubKey pk => insert pk.GetKeyId keyIds
          | _ => insert account.keyid keyIds
        if ver = FeatureVersion.MAJOR_VER_R2 && !account.HaveOwnerPubKey then
          Sum.inl (CheckResult.dos 100 "bad-read-accountdb")
        else
          checkVotesLoop env ver cw rest keyIds₁

/-- The public key the signature is verified against (source line 38): the
transaction-carried key when the sender identifier is a raw public key,
otherwise the stored owner key of the sender account. -/
def resolvedSigKey (tx : CDelegateVoteTx) (src : CAccount) : CPubKey :=
  match tx.txUid with
  | CUserID.pubKey pk => pk
  | _ => src.owner_pubkey

/-- `CDelegateVoteTx::CheckTx` (source lines 18-75), translated step by step in
source order: fee macro, sender identifier kind macro, candidate list length,
sender raw-key validity, sender account existence, signature verification
gated on the feature version being exactly `MAJOR_VER_R2`, the per-candidate
loop, and the duplicate-candidate set-size comparison. -/
def CDelegateVoteTx.CheckTx (env : Env) (height : Nat) (tx : CDelegateVoteTx)
    (cw : CCacheWrapper) : CheckResult :=
  if !env.feeOk tx.llFees then CheckResult.dos 100 "bad-fee"
  else if tx.txUid = CUserID.otherUid then CheckResult.dos 100 "bad-txuid-type"
  else if tx.candidateVotes.isEmpty
      || decide (env.maxVoteCandidateNum < tx.candidateVotes.length) then
    CheckResult.dos 100 "candidate-votes-out-of-range"
  else if pubKeyTypeInvalid tx.txUid then
    CheckResult.dos 100 "bad-publickey"
  else
    match GetAccount cw tx.txUid with
    | none => CheckResult.dos 100 "bad-read-accountdb"
    | some srcAccount =>
      if env.GetFeatureForkVersion height = FeatureVersion.MAJOR_VER_R2
          && !env.sigVerify (resolvedSigKey tx srcAccount) then
        CheckResult.dos 100 "bad-signature"
      else
        match checkVotesLoop env (env.GetFeatureForkVersion height) cw tx.candidateVotes ∅ with
        | Sum.inl r => r
        | Sum.inr keyIds =>
          if keyIds.card ≠ tx.candidateVotes.length then
            CheckResult.dos 100 "duplication-candidate-error"
          else CheckResult.accepted

/-- Modelled from the spec: `GenerateRegID` — if the sender has no registered
id yet, assign one deterministically from the height and the transaction
index (lazy registration); the account itself is only mutated locally. -/
def GenerateRegID (a : CAccount) (height txIndex : Nat) : CAccount :=
  if a.regid.IsEmpty then { a with regid := ⟨height, txIndex⟩ } else a

/-- Modelled from the spec: `CAccount::OperateBalance` with `SUB_FREE` on the
primary asset — debit the amount from the free balance, failing on
insufficient funds. -/
def CAccount.OperateBalance (a : CAccount) (amount : Nat) : Option CAccount :=
  if a.free_bcoins < amount then none
  else some { a with free_bcoins := a.free_bcoins - amount }

/-- Modelled from the spec: `CAccount::StakeVoteBcoins` — apply the signed
weight delta to the received vote weight: staking adds the weight, unstaking
subtracts it and fails when the subtraction would underflow; the invalid
default operation fails. -/
def CAccount.StakeVoteBcoins (a : CAccount) (t : VoteType) (votes : Nat) : Option CAccount :=
  match t with
  | VoteType.ADD_BCOIN => some { a with received_votes := a.received_votes + votes }
  | VoteType.MINUS_BCOIN =>
    if a.received_votes < votes then none
    else some { a with received_votes := a.received_votes - votes }
  | VoteType.NULL_VOTE => none

/-- Resolution of a candidate identifier to its canonical account key:
public-key identifiers resolve via the key-derived address, registered ids via
the stored account. -/
def resolveCandidateKey (cw : CCacheWrapper) (uid : CUserID) : Option CKeyID :=
  match uid with
  | CUserID.pubKey pk => some pk.GetKeyId
  | CUserID.regID rid => (GetAccountByRegID cw rid).map CAccount.keyid
  | CUserID.otherUid => none

/-- Two identifiers name the same candidate when both resolve to the same
canonical account key. -/
def sameCandidate (cw : CCacheWrapper) (uid₁ uid₂ : CUserID) : Bool :=
  match resolveCandidateKey cw uid₁, resolveCandidateKey cw uid₂ with
  | some k₁, some k₂ => k₁ == k₂
  | _, _ => false

/-- The existing staked weight for a candidate in a voter's vote list, zero if
the candidate has no entry. -/
def existingWeight (cw : CCacheWrapper) (l : List CCandidateReceivedVote)
    (uid : CUserID) : Nat :=
  match l.find? (fun e => sameCandidate cw e.candidateUid uid) with
  | some e => e.votedBcoins
  | none => 0

/-- Store a new weight for a candidate in a voter's vote list: a zero weight
removes the entry, otherwise the entry is updated in place or appended. -/
def setCandidateEntry (cw : CCacheWrapper) (l : List CCandidateReceivedVote)
    (uid : CUserID) (w : Nat) : List CCandidateReceivedVote :=
  if w = 0 then l.filter (fun e => !sameCandidate cw e.candidateUid uid)
  else if (l.find? (fun e => sameCandidate cw e.candidateUid uid)).isSome then
    l.map (fun e => if sameCandidate cw e.candidateUid uid then { e with votedBcoins := w } else e)
  else l ++ [{ candidateUid := uid, votedBcoins := w }]

/-- Modelled from the spec: one step of the vote-merge algorithm of
`CAccount::ProcessDelegateVotes` — staking sets the entry weight to the
existing weight plus the vote weight, unstaking to the truncated difference
(max of zero and existing minus vote weight); a zero result removes the entry;
a receipt records the net effect. -/
def mergeOneVote (cw : CCacheWrapper) (l : List CCandidateReceivedVote)
    (v : CCandidateVote) : List CCandidateReceivedVote × CReceipt :=
  let w₀ := existingWeight cw l v.candidateUid
  let key := (resolveCandidateKey cw v.candidateUid).getD 0
  match v.voteType with
  | VoteType.ADD_BCOIN =>
    (setCandidateEntry cw l v.candidateUid (w₀ + v.votedBcoins),
     { kind := ReceiptKind.stakeCredit, account := key, amount := v.votedBcoins })
  | VoteType.MINUS_BCOIN =>
    (setCandidateEntry cw l v.candidateUid (w₀ - v.votedBcoins),
     { kind := ReceiptKind.stakeDebit, account := key, amount := min w₀ v.votedBcoins })
  | VoteType.NULL_VOTE =>
    (l, { kind := ReceiptKind.stakeDebit, account := key, amount := 0 })

/-- Modelled from the spec: `CAccount::ProcessDelegateVotes` — the vote-merge
algorithm, processing each candidate vote in transaction order against the
voter's vote list and producing the updated list together with the receipt
batch (one receipt per vote, recording its net effect).  In the source this is
an account method; the spec-level algorithm reads only the vote lists and the
account store, and in particular never fails. -/
def ProcessDelegateVotes (cw : CCacheWrapper) :
    List CCandidateVote → List CCandidateReceivedVote →
    List CCandidateReceivedVote × List CReceipt
  | [], inOut => (inOut, [])
  | v :: rest, inOut =>
    let step := mergeOneVote cw inOut v
    let restRes := ProcessDelegateVotes cw rest step.1
    (restRes.1, step.2 :: restRes.2)

/-- Intermediate outcome of the executor body, before the receipt store. -/
inductive ExecOutcome where
  | err (reason : String) (cw : CCacheWrapper)
  | ok (cw : CCacheWrapper) (receipts : List CReceipt)
deriving DecidableEq, Repr

/-- The per-candidate loop of `ExecuteTx` (source lines 112-140): for each
vote, reload the candidate account, apply the weight delta, insert the new
(weight, key) index entry, erase the old one, and persist the candidate.  The
error state carried out of a failure is the cache as already mutated by the
preceding iterations and by the sender persistence. -/
def execVoteLoop (cw : CCacheWrapper) :
    List CCandidateVote → (String × CCacheWrapper) ⊕ CCacheWrapper
  | [] => Sum.inr cw
  | vote :: rest =>
    match GetAccount cw vote.candidateUid with
    | none => Sum.inl ("bad-read-accountdb", cw)
    | some delegate =>
      match delegate.StakeVoteBcoins vote.voteType vote.votedBcoins with
      | none => Sum.inl ("operate-vote-error", cw)
      | some delegate₁ =>
        execVoteLoop
          (SaveAccount
            (EraseDelegateVotes
              (SetDelegateVotes cw delegate₁.regid delegate₁.received_votes)
              delegate₁.regid delegate.received_votes)
            delegate₁)
          rest

/-- The body of `CDelegateVoteTx::ExecuteTx` (source lines 77-140) up to and
excluding the receipt store: reload the sender, lazily assign a regid, debit
the fee, merge the votes, persist the vote list and the sender, then run the
per-candidate loop.  The in-memory store writes of the cache wrapper cannot
themselves fail, so the write-failure branches of the source are dead here. -/
def executeMain (height txIndex : Nat) (tx : CDelegateVoteTx)
    (cw : CCacheWrapper) : ExecOutcome :=
  match GetAccount cw tx.txUid with
  | none => ExecOutcome.err "bad-read-accountdb" cw
  | some srcAccount₀ =>
    match (GenerateRegID srcAccount₀ height txIndex).OperateBalance tx.llFees with
    | none => ExecOutcome.err "operate-account-failed" cw
    | some srcAccount₂ =>
      match execVoteLoop
          (SaveAccount
            (SetCandidateVotes cw srcAccount₂.regid
              (ProcessDelegateVotes cw tx.candidateVotes
                (GetCandidateVotes cw srcAccount₂.regid)).1)
            srcAccount₂) tx.candidateVotes with
      | Sum.inl rcw => ExecOutcome.err rcw.1 rcw.2
      | Sum.inr cw₃ =>
        ExecOutcome.ok cw₃
          (ProcessDelegateVotes cw tx.candidateVotes
            (GetCandidateVotes cw srcAccount₂.regid)).2

/-- Result of `ExecuteTx`: success or a specific error, in both cases carrying
the cache state as left by the call. -/
inductive ExecResult where
  | ok (cw : CCacheWrapper)
  | err (reason : String) (cw : CCacheWrapper)
deriving DecidableEq, Repr

/-- The error reason of a result, none on success. -/
def ExecResult.reasonOf : ExecResult → Option String
  | ExecResult.ok _ => none
  | ExecResult.err r _ => some r

/-- The cache state carried by a result. -/
def ExecResult.stateOf : ExecResult → CCacheWrapper
  | ExecResult.ok cw => cw
  | ExecResult.err _ cw => cw

/-- `CDelegateVoteTx::ExecuteTx` (source lines 77-145): the body followed by
the receipt store, whose boolean result the source discards (line 142) before
returning true.  The behavior of the external receipt sink is the `receiptOk`
parameter. -/
def CDelegateVoteTx.ExecuteTx (receiptOk : Bool) (height txIndex : Nat)
    (tx : CDelegateVoteTx) (cw : CCacheWrapper) : ExecResult :=
  match executeMain height txIndex tx cw with
  | ExecOutcome.err r cw₁ => ExecResult.err r cw₁
  | ExecOutcome.ok cw₁ receipts =>
    ExecResult.ok (SetTxReceipts receiptOk cw₁ tx.txHash receipts).2

/-! Concrete fixtures for the scenarios of the spec (section 8): sender S with
balance 5000 and fee 100, candidate D; scenario A stakes 1000 on a fresh D,
scenario C unstakes 2000 while the current stake from S is 1000. -/

/-- Sender identifier of the scenarios (registered id of S). -/
def uidS : CUserID := CUserID.regID ⟨1, 1⟩

/-- Candidate identifier of the scenarios (registered id of D). -/
def uidD : CUserID := CUserID.regID ⟨1, 2⟩

/-- Sender account S: registered, balance 5000. -/
def acctS : CAccount :=
  { keyid := 1, regid := ⟨1, 1⟩, owner_pubkey := ⟨1, true⟩
    free_bcoins := 5000, received_votes := 0 }

/-- Candidate account D with received vote weight 0 (scenario A). -/
def acctD : CAccount :=
  { keyid := 2, regid := ⟨1, 2⟩, owner_pubkey := ⟨2, true⟩
    free_bcoins := 0, received_votes := 0 }

/-- Candidate account D with received vote weight 1000 (scenario C). -/
def acctD1000 : CAccount := { acctD with received_votes := 1000 }

/-- Initial state of scenario A: S and D stored, empty vote lists and index. -/
def cwA : CCacheWrapper :=
  { accounts := [(1, acctS), (2, acctD)]
    regid2keyid := [(⟨1, 1⟩, 1), (⟨1, 2⟩, 2)]
    voterVotes := [], delegateIndex := [], txReceipts := [] }

/-- Scenario A transaction: one stake of 1000 on D, fee 100. -/
def txA : CDelegateVoteTx :=
  { txUid := uidS, llFees := 100
    candidateVotes := [⟨VoteType.ADD_BCOIN, uidD, 1000⟩], txHash := 7 }

/-- Initial state of scenario C: the stake of 1000 from S on D is in place in
the voter list, the index and the received weight of D. -/
def cwC : CCacheWrapper :=
  { accounts := [(1, acctS), (2, acctD1000)]
    regid2keyid := [(⟨1, 1⟩, 1), (⟨1, 2⟩, 2)]
    voterVotes := [(⟨1, 1⟩, [⟨uidD, 1000⟩])]
    delegateIndex := [(1000, ⟨1, 2⟩)], txReceipts := [] }

/-- Scenario C transaction: one unstake of 2000 on D, fee 100. -/
def txC : CDelegateVoteTx :=
  { txUid := uidS, llFees := 100
    candidateVotes := [⟨VoteType.MINUS_BCOIN, uidD, 2000⟩], txHash := 9 }

/-- Candidate account D without a registered owner public key. -/
def acctDUnreg : CAccount := { acctD with owner_pubkey := ⟨2, false⟩ }

/-- State like scenario A but with the candidate D unregistered. -/
def cwB : CCacheWrapper := { cwA with accounts := [(1, acctS), (2, acctDUnreg)] }

/-- A permissive environment pinned at feature version `MAJOR_VER_R2`. -/
def envR2 : Env :=
  { GetFeatureForkVersion := fun _ => FeatureVersion.MAJOR_VER_R2
    feeOk := fun _ => true, sigVerify := fun _ => true
    maxVoteCandidateNum := 11, maxCoinMoney := 21000000000000000 }

/-- An environment pinned at `MAJOR_VER_R2` whose external signature verifier
rejects every signature. -/
def envR2BadSig : Env := { envR2 with sigVerify := fun _ => false }

/-- An environment pinned at the post-R2 feature version `MAJOR_VER_R3` whose
external signature verifier rejects every signature. -/
def envR3BadSig : Env :=
  { GetFeatureForkVersion := fun _ => FeatureVersion.MAJOR_VER_R3
    feeOk := fun _ => true, sigVerify := fun _ => false
    maxVoteCandidateNum := 11, maxCoinMoney := 21000000000000000 }

/-! Association-list and store lemmas. -/

theorem alistGet_alistSet_self {α β : Type} [DecidableEq α] (l : List (α × β)) (k : α) (v : β) :
    alistGet (alistSet l k v) k = some v := by
  induction l with
  | nil => simp [alistGet, alistSet]
  | cons hd tl ih =>
    obtain ⟨k₁, v₁⟩ := hd
    by_cases h : k = k₁
    · simp [alistGet, alistSet, h]
    · simp [alistGet, alistSet, h, ih]

theorem alistGet_alistSet_ne {α β : Type} [DecidableEq α] (l : List (α × β)) (k k' : α) (v : β)
    (h : k' ≠ k) : alistGet (alistSet l k v) k' = alistGet l k' := by
  induction l with
  | nil => simp [alistGet, alistSet, h]
  | cons hd tl ih =>
    obtain ⟨k₁, v₁⟩ := hd
    by_cases h₁ : k = k₁
    · subst h₁; simp [alistGet, alistSet, h]
    · by_cases h₂ : k' = k₁ <;> simp [alistGet, alistSet, h₁, h₂, ih]

theorem alistGet_mem {α β : Type} [DecidableEq α] {l : List (α × β)} {k : α} {v : β}
    (h : alistGet l k = some v) : (k, v) ∈ l := by
  induction l with
  | nil => simp [alistGet] at h
  | cons hd tl ih =>
    obtain ⟨k₁, v₁⟩ := hd
    by_cases h₁ : k = k₁
    · subst h₁
      simp [alistGet] at h
      simp [h]
    · simp [alistGet, h₁] at h
      exact List.mem_cons_of_mem _ (ih h)

theorem alistGet_map_snd {α β γ : Type} [DecidableEq α] (g : β → γ) (l : List (α × β)) (k : α) :
    alistGet (l.map (fun p => (p.1, g p.2))) k = (alistGet l k).map g := by
  induction l with
  | nil => simp [alistGet]
  | cons hd tl ih =>
    obtain ⟨k₁, v₁⟩ := hd
    by_cases h : k = k₁ <;> simp [alistGet, h, ih]

theorem alistSet_all {α β : Type} [DecidableEq α] (p : α × β → Bool) (l : List (α × β))
    (k : α) (v : β) (hl : l.all p = true) (hv : p (k, v) = true) :
    (alistSet l k v).all p = true := by
  induction l with
  | nil => simpa [alistSet]
  | cons hd tl ih =>
    obtain ⟨k₁, v₁⟩ := hd
    simp only [List.all_cons, Bool.and_eq_true] at hl
    by_cases h : k = k₁
    · subst h; simp [alistSet, hv, hl.2]
    · simp [alistSet, h, hl.1, ih hl.2]

/-! Projection lemmas: which component each store operation touches. -/

@[simp] theorem SetCandidateVotes_accounts (cw : CCacheWrapper) (rid : CRegID)
    (l : List CCandidateReceivedVote) : (SetCandidateVotes cw rid l).accounts = cw.accounts := rfl

@[simp] theorem SetCandidateVotes_regid2keyid (cw : CCacheWrapper) (rid : CRegID)
    (l : List CCandidateReceivedVote) :
    (SetCandidateVotes cw rid l).regid2keyid = cw.regid2keyid := rfl

@[simp] theorem SetCandidateVotes_delegateIndex (cw : CCacheWrapper) (rid : CRegID)
    (l : List CCandidateReceivedVote) :
    (SetCandidateVotes cw rid l).delegateIndex = cw.delegateIndex := rfl

@[simp] theorem SaveAccount_delegateIndex (cw : CCacheWrapper) (a : CAccount) :
    (SaveAccount cw a).delegateIndex = cw.delegateIndex := rfl

@[simp] theorem SetDelegateVotes_accounts (cw : CCacheWrapper) (rid : CRegID) (w : Nat) :
    (SetDelegateVotes cw rid w).accounts = cw.accounts := rfl

@[simp] theorem SetDelegateVotes_regid2keyid (cw : CCacheWrapper) (rid : CRegID) (w : Nat) :
    (SetDelegateVotes cw rid w).regid2keyid = cw.regid2keyid := rfl

@[simp] theorem EraseDelegateVotes_accounts (cw : CCacheWrapper) (rid : CRegID) (w : Nat) :
    (EraseDelegateVotes cw rid w).accounts = cw.accounts := rfl

@[simp] theorem EraseDelegateVotes_regid2keyid (cw : CCacheWrapper) (rid : CRegID) (w : Nat) :
    (EraseDelegateVotes cw rid w).regid2keyid = cw.regid2keyid := rfl

@[simp] theorem SetTxReceipts_delegateIndex (ok : Bool) (cw : CCacheWrapper) (hash : Nat)
    (receipts : List CReceipt) :
    ((SetTxReceipts ok cw hash receipts).2).delegateIndex = cw.delegateIndex := by
  unfold SetTxReceipts; split <;> rfl

/-- `GetAccount` only reads the account store and the regid side index. -/
theorem GetAccount_SetCandidateVotes (cw : CCacheWrapper) (rid : CRegID)
    (l : List CCandidateReceivedVote) (uid : CUserID) :
    GetAccount (SetCandidateVotes cw rid l) uid = GetAccount cw uid := by
  cases uid <;> rfl

/-- The misbehavior data attached to a check outcome: the score and reason of a
`DoS` rejection, nothing for acceptance or for a bare failure. -/
def CheckResult.misbehaviorOf : CheckResult → Option (Nat × String)
  | CheckResult.dos s r => some (s, r)
  | _ => none

/-- C10: a successful execute returns success regardless of whether storing the
receipt batch in the ReceiptSink succeeds; the boolean result of the receipt
store is discarded (source line 142), so the accept/error outcome of
`ExecuteTx` is identical for a succeeding and for a failing receipt store. -/
theorem c10_receipt_store_result_ignored (b₁ b₂ : Bool) (height txIndex : Nat)
    (tx : CDelegateVoteTx) (cw : CCacheWrapper) :
    (CDelegateVoteTx.ExecuteTx b₁ height txIndex tx cw).reasonOf
      = (CDelegateVoteTx.ExecuteTx b₂ height txIndex tx cw).reasonOf := by
  unfold CDelegateVoteTx.ExecuteTx
  cases executeMain height txIndex tx cw <;> simp [ExecResult.reasonOf]

/-- C1 counterexample: in scenario C, `ExecuteTx` fails with
`operate-vote-error`, yet the state it leaves behind differs from the
pre-execution state: the fee debit of 100 on the sender and the emptied voter
vote list are visible in the cache at the moment of failure.  Rolling these
back is the job of the caller, not of `ExecuteTx` itself. -/
theorem c1_counterexample :
    (CDelegateVoteTx.ExecuteTx true 10 0 txC cwC).reasonOf = some "operate-vote-error"
    ∧ (GetAccount cwC uidS).map CAccount.free_bcoins = some 5000
    ∧ (GetAccount (CDelegateVoteTx.ExecuteTx true 10 0 txC cwC).stateOf uidS).map
        CAccount.free_bcoins = some 4900
    ∧ GetCandidateVotes cwC ⟨1, 1⟩ = [⟨uidD, 1000⟩]
    ∧ GetCandidateVotes (CDelegateVoteTx.ExecuteTx true 10 0 txC cwC).stateOf ⟨1, 1⟩ = [] := by
  decide

/-- C1 (amended): `ExecuteTx` is atomic only for failures that occur before its
first store write — a missing sender account or a failing fee debit return the
cache exactly as given.  Failures of the later per-candidate phase can leave
the sender persistence and earlier candidate updates visible (see the
counterexample); discarding them is the enclosing transactional scope of the
caller, per section 5 of the spec. -/
theorem c1_atomic_before_first_write (b : Bool) (height txIndex : Nat)
    (tx : CDelegateVoteTx) (cw : CCacheWrapper) :
    (GetAccount cw tx.txUid = none →
      CDelegateVoteTx.ExecuteTx b height txIndex tx cw
        = ExecResult.err "bad-read-accountdb" cw)
    ∧ (∀ a, GetAccount cw tx.txUid = some a → a.free_bcoins < tx.llFees →
      CDelegateVoteTx.ExecuteTx b height txIndex tx cw
        = ExecResult.err "operate-account-failed" cw) := by
  constructor
  · intro h
    unfold CDelegateVoteTx.ExecuteTx executeMain
    rw [h]
  · intro a h hlt
    unfold CDelegateVoteTx.ExecuteTx executeMain
    rw [h]
    have hfree : (GenerateRegID a height txIndex).free_bcoins = a.free_bcoins := by
      unfold GenerateRegID; split <;> rfl
    simp [CAccount.OperateBalance, hfree, hlt]

/-- Witness for the amended C1: a concrete fee debit failure (fee 6000 against
balance 5000) returns the unchanged scenario C state. -/
theorem c1_atomic_before_first_write_witness :
    GetAccount cwC { txC with llFees := 6000 }.txUid = some acctS
    ∧ acctS.free_bcoins < ({ txC with llFees := 6000 } : CDelegateVoteTx).llFees
    ∧ CDelegateVoteTx.ExecuteTx true 10 0 { txC with llFees := 6000 } cwC
        = ExecResult.err "operate-account-failed" cwC :=
  ⟨by decide, by decide,
   (c1_atomic_before_first_write true 10 0 { txC with llFees := 6000 } cwC).2 acctS
     (by decide) (by decide)⟩

/-- C2 counterexample: at a height whose feature version is the post-R2 version
`MAJOR_VER_R3`, `CheckTx` accepts a transaction although the external signature
verifier rejects every signature and the candidate has no registered owner key:
the source gates both requirements on the version being exactly
`MAJOR_VER_R2` (lines 37 and 61), not on `MAJOR_VER_R2` or later. -/
theorem c2_counterexample :
    CDelegateVoteTx.CheckTx envR3BadSig 10 txA cwB = CheckResult.accepted
    ∧ envR3BadSig.GetFeatureForkVersion 10 = FeatureVersion.MAJOR_VER_R3
    ∧ envR3BadSig.sigVerify acctS.owner_pubkey = false
    ∧ (GetAccount cwB uidD).map CAccount.HaveOwnerPubKey = some false := by
  decide

/-- C3 counterexample: scenario A succeeds but stores exactly one receipt (the
stake credit of 1000) under the transaction hash, not two: the receipt vector
of the source is created after the fee debit (line 97) and filled only by the
vote merge, so no fee-debit receipt can reach the stored batch. -/
theorem c3_counterexample :
    (CDelegateVoteTx.ExecuteTx true 10 0 txA cwA).reasonOf = none
    ∧ alistGet (CDelegateVoteTx.ExecuteTx true 10 0 txA cwA).stateOf.txReceipts txA.txHash
        = some [{ kind := ReceiptKind.stakeCredit, account := 2, amount := 1000 }] := by
  decide

/-- C4 counterexample: a candidate vote of weight 0 makes `CheckTx` reject
through a bare `return ERRORMSG(...)` (source line 49), which carries no
rejection reason code and no misbehavior score — unlike the other checks,
which go through `state.DoS(100, ...)`. -/
theorem c4_counterexample :
    CDelegateVoteTx.CheckTx envR2 10
        { txA with candidateVotes := [⟨VoteType.ADD_BCOIN, uidD, 0⟩] } cwA
      = CheckResult.failed
    ∧ (CDelegateVoteTx.CheckTx envR2 10
        { txA with candidateVotes := [⟨VoteType.ADD_BCOIN, uidD, 0⟩] } cwA).misbehaviorOf
      = none := by
  decide

/-- C6 counterexample: a transaction whose sender key does not decode to a
valid curve point and whose candidate list is empty is rejected with
`candidate-votes-out-of-range`, not with `bad-publickey`: the source checks
the list length (line 22) before the key validity (line 27). -/
theorem c6_counterexample :
    CDelegateVoteTx.CheckTx envR2 10
        { txUid := CUserID.pubKey ⟨9, false⟩, llFees := 100, candidateVotes := [], txHash := 3 }
        cwA
      = CheckResult.dos 100 "candidate-votes-out-of-range"
    ∧ CDelegateVoteTx.CheckTx envR2 10
        { txUid := CUserID.pubKey ⟨9, false⟩, llFees := 100, candidateVotes := [], txHash := 3 }
        cwA
      ≠ CheckResult.dos 100 "bad-publickey" := by
  decide

/-- C6 (amended): the candidate-list length check of step 3 precedes the
public-key validity check of step 2: whenever the fee check passes, the sender
identifier is a raw public key — of any validity — and the list length is out
of range, `CheckTx` rejects with `candidate-votes-out-of-range`. -/
theorem c6_length_checked_before_pubkey (env : Env) (height : Nat) (tx : CDelegateVoteTx)
    (cw : CCacheWrapper) (pk : CPubKey)
    (hfee : env.feeOk tx.llFees = true)
    (huid : tx.txUid = CUserID.pubKey pk)
    (hlen : (tx.candidateVotes.isEmpty
      || decide (env.maxVoteCandidateNum < tx.candidateVotes.length)) = true) :
    CDelegateVoteTx.CheckTx env height tx cw
      = CheckResult.dos 100 "candidate-votes-out-of-range" := by
  unfold CDelegateVoteTx.CheckTx
  rw [hfee, huid]
  simp [hlen]

/-- Witness for the amended C6: an invalid raw sender key together with an
oversized candidate list still yields `candidate-votes-out-of-range`. -/
theorem c6_length_checked_before_pubkey_witness :
    envR2.feeOk 100 = true
    ∧ (((List.replicate 12 (⟨VoteType.ADD_BCOIN, uidD, 1000⟩ : CCandidateVote)).isEmpty
        || decide (envR2.maxVoteCandidateNum
            < (List.replicate 12 (⟨VoteType.ADD_BCOIN, uidD, 1000⟩ : CCandidateVote)).length))
        = true)
    ∧ CDelegateVoteTx.CheckTx envR2 10
        { txUid := CUserID.pubKey ⟨9, false⟩, llFees := 100
          candidateVotes := List.replicate 12 ⟨VoteType.ADD_BCOIN, uidD, 1000⟩, txHash := 4 }
        cwA
      = CheckResult.dos 100 "candidate-votes-out-of-range" :=
  ⟨by decide, by decide,
   c6_length_checked_before_pubkey envR2 10
     { txUid := CUserID.pubKey ⟨9, false⟩, llFees := 100
       candidateVotes := List.replicate 12 ⟨VoteType.ADD_BCOIN, uidD, 1000⟩, txHash := 4 }
     cwA ⟨9, false⟩ (by decide) rfl (by decide)⟩

/-- C4 (amended): an out-of-range vote weight (zero, or above MaxCoinMoney)
does make `CheckTx` reject, but through a bare false return that carries no
rejection reason code and no misbehavior score, unlike the other failing
checks, which attach a score of 100 and a reason string. -/
theorem c4_weight_range_bare_failure (env : Env) (height : Nat) (tx : CDelegateVoteTx)
    (cw : CCacheWrapper) (v : CCandidateVote) (rest : List CCandidateVote) (src : CAccount)
    (hfee : env.feeOk tx.llFees = true)
    (huidT : tx.txUid ≠ CUserID.otherUid)
    (hvotes : tx.candidateVotes = v :: rest)
    (hlen : tx.candidateVotes.length ≤ env.maxVoteCandidateNum)
    (hpk : pubKeyTypeInvalid tx.txUid = false)
    (hsrc : GetAccount cw tx.txUid = some src)
    (hsig : env.GetFeatureForkVersion height = FeatureVersion.MAJOR_VER_R2 →
      env.sigVerify (resolvedSigKey tx src) = true)
    (hvu : v.candidateUid ≠ CUserID.otherUid)
    (hw : v.votedBcoins = 0 ∨ env.maxCoinMoney < v.votedBcoins) :
    CDelegateVoteTx.CheckTx env height tx cw = CheckResult.failed
    ∧ (CDelegateVoteTx.CheckTx env height tx cw).misbehaviorOf = none := by
  have hnl : ¬ env.maxVoteCandidateNum < tx.candidateVotes.length := Nat.not_lt.2 hlen
  have hwb : (v.votedBcoins == 0 || decide (env.maxCoinMoney < v.votedBcoins)) = true := by
    rcases hw with h | h <;> simp [h]
  have hlenb : (tx.candidateVotes.isEmpty
      || decide (env.maxVoteCandidateNum < tx.candidateVotes.length)) = false := by
    rw [hvotes]
    rw [hvotes] at hnl
    simpa using Nat.not_lt.1 hnl
  have hloop : checkVotesLoop env (env.GetFeatureForkVersion height) cw tx.candidateVotes ∅
      = Sum.inl CheckResult.failed := by
    rw [hvotes]
    unfold checkVotesLoop
    rw [if_neg hvu]
    simp [hwb]
  have hres : CDelegateVoteTx.CheckTx env height tx cw = CheckResult.failed := by
    unfold CDelegateVoteTx.CheckTx
    rw [hfee, if_neg huidT, hsrc]
    by_cases hver : env.GetFeatureForkVersion height = FeatureVersion.MAJOR_VER_R2
    · rw [hver] at hloop
      simp [hlenb, hpk, hver, hsig hver, hloop]
    · simp [hlenb, hpk, hver, hloop]
  exact ⟨hres, by rw [hres]; rfl⟩

/-- Witness for the amended C4: a vote weight above MaxCoinMoney yields the
bare failure with no misbehavior data. -/
theorem c4_weight_range_bare_failure_witness :
    envR2.maxCoinMoney < 21000000000000001
    ∧ CDelegateVoteTx.CheckTx envR2 10
        { txA with candidateVotes := [⟨VoteType.ADD_BCOIN, uidD, 21000000000000001⟩] } cwA
      = CheckResult.failed
    ∧ (CDelegateVoteTx.CheckTx envR2 10
        { txA with candidateVotes := [⟨VoteType.ADD_BCOIN, uidD, 21000000000000001⟩] } cwA).misbehaviorOf
      = none :=
  ⟨by decide,
   (c4_weight_range_bare_failure envR2 10
     { txA with candidateVotes := [⟨VoteType.ADD_BCOIN, uidD, 21000000000000001⟩] } cwA
     ⟨VoteType.ADD_BCOIN, uidD, 21000000000000001⟩ [] acctS
     (by decide) (by decide) rfl (by decide) (by decide) (by decide) (by decide)
     (by decide) (Or.inr (by decide))).1,
   (c4_weight_range_bare_failure envR2 10
     { txA with candidateVotes := [⟨VoteType.ADD_BCOIN, uidD, 21000000000000001⟩] } cwA
     ⟨VoteType.ADD_BCOIN, uidD, 21000000000000001⟩ [] acctS
     (by decide) (by decide) rfl (by decide) (by decide) (by decide) (by decide)
     (by decide) (Or.inr (by decide))).2⟩

/-- An account with its owner public key marked invalid (unregistered). -/
def invalidateOwner (a : CAccount) : CAccount :=
  { a with owner_pubkey := { a.owner_pubkey with fullyValid := false } }

/-- A state in which every stored account has lost its registered owner key;
used to show when owner-key registration is not consulted. -/
def invalidateOwners (cw : CCacheWrapper) : CCacheWrapper :=
  { cw with accounts := cw.accounts.map (fun p => (p.1, invalidateOwner p.2)) }

theorem GetAccount_invalidateOwners (cw : CCacheWrapper) (uid : CUserID) :
    GetAccount (invalidateOwners cw) uid = (GetAccount cw uid).map invalidateOwner := by
  cases uid with
  | pubKey pk => simp [GetAccount, invalidateOwners, alistGet_map_snd]
  | regID rid =>
    simp only [GetAccount, GetAccountByRegID, invalidateOwners]
    cases alistGet cw.regid2keyid rid <;> simp [alistGet_map_snd]
  | otherUid => rfl

theorem checkVotesLoop_sigVerify (env : Env) (s : CPubKey → Bool) (ver : FeatureVersion)
    (cw : CCacheWrapper) (votes : List CCandidateVote) (ks : Finset CKeyID) :
    checkVotesLoop { env with sigVerify := s } ver cw votes ks
      = checkVotesLoop env ver cw votes ks := by
  induction votes generalizing ks with
  | nil => rfl
  | cons v rest ih =>
    by_cases h1 : v.candidateUid = CUserID.otherUid
    · simp [checkVotesLoop, h1]
    · by_cases h2 : (v.votedBcoins == 0 || decide (env.maxCoinMoney < v.votedBcoins)) = true
      · simp [checkVotesLoop, h1, h2]
      · cases hga : GetAccount cw v.candidateUid with
        | none => simp [checkVotesLoop, h1, h2, hga]
        | some a => simp [checkVotesLoop, h1, h2, hga, ih]

theorem checkVotesLoop_invalidateOwners (env : Env) (ver : FeatureVersion)
    (cw : CCacheWrapper) (votes : List CCandidateVote) (ks : Finset CKeyID)
    (hver : ver ≠ FeatureVersion.MAJOR_VER_R2) :
    checkVotesLoop env ver (invalidateOwners cw) votes ks
      = checkVotesLoop env ver cw votes ks := by
  induction votes generalizing ks with
  | nil => rfl
  | cons v rest ih =>
    by_cases h1 : v.candidateUid = CUserID.otherUid
    · simp [checkVotesLoop, h1]
    · by_cases h2 : (v.votedBcoins == 0 || decide (env.maxCoinMoney < v.votedBcoins)) = true
      · simp [checkVotesLoop, h1, h2]
      · cases hga : GetAccount cw v.candidateUid with
        | none =>
          simp [checkVotesLoop, h1, h2, GetAccount_invalidateOwners, hga]
        | some a =>
          have hkey : (invalidateOwner a).keyid = a.keyid := rfl
          simp [checkVotesLoop, h1, h2, GetAccount_invalidateOwners, hga, hver, hkey, ih]

/-- C2 (amended): the strong-authentication requirements are enforced exactly
when the feature version of the height is `MAJOR_VER_R2` — not for R2 or any
later version.  (i) At any other version the signature verifier is never
consulted; (ii) at any other version candidate owner-key registration is never
consulted; (iii) exactly at R2 a failing signature against the resolved key
(transaction-carried key preferred over the stored owner key) rejects with
`bad-signature`; (iv) exactly at R2 a candidate without a registered owner
key rejects with `bad-read-accountdb`. -/
theorem c2_strong_auth_exactly_at_R2 (env : Env) (height : Nat) (tx : CDelegateVoteTx)
    (cw : CCacheWrapper) :
    (env.GetFeatureForkVersion height ≠ FeatureVersion.MAJOR_VER_R2 →
      ∀ s, CDelegateVoteTx.CheckTx { env with sigVerify := s } height tx cw
        = CDelegateVoteTx.CheckTx env height tx cw)
    ∧ (env.GetFeatureForkVersion height ≠ FeatureVersion.MAJOR_VER_R2 →
      CDelegateVoteTx.CheckTx env height tx (invalidateOwners cw)
        = CDelegateVoteTx.CheckTx env height tx cw)
    ∧ (∀ src, env.feeOk tx.llFees = true → tx.txUid ≠ CUserID.otherUid →
      (tx.candidateVotes.isEmpty
        || decide (env.maxVoteCandidateNum < tx.candidateVotes.length)) = false →
      pubKeyTypeInvalid tx.txUid = false →
      GetAccount cw tx.txUid = some src →
      env.GetFeatureForkVersion height = FeatureVersion.MAJOR_VER_R2 →
      env.sigVerify (resolvedSigKey tx src) = false →
      CDelegateVoteTx.CheckTx env height tx cw = CheckResult.dos 100 "bad-signature")
    ∧ (∀ src v rest a, env.feeOk tx.llFees = true → tx.txUid ≠ CUserID.otherUid →
      tx.candidateVotes = v :: rest →
      tx.candidateVotes.length ≤ env.maxVoteCandidateNum →
      pubKeyTypeInvalid tx.txUid = false →
      GetAccount cw tx.txUid = some src →
      env.GetFeatureForkVersion height = FeatureVersion.MAJOR_VER_R2 →
      env.sigVerify (resolvedSigKey tx src) = true →
      v.candidateUid ≠ CUserID.otherUid →
      v.votedBcoins ≠ 0 → v.votedBcoins ≤ env.maxCoinMoney →
      GetAccount cw v.candidateUid = some a →
      a.HaveOwnerPubKey = false →
      CDelegateVoteTx.CheckTx env height tx cw = CheckResult.dos 100 "bad-read-accountdb") := by
  refine ⟨?_, ?_, ?_, ?_⟩
  · intro hver s
    unfold CDelegateVoteTx.CheckTx
    cases hga : GetAccount cw tx.txUid with
    | none => simp [hga]
    | some src => simp [hga, hver, checkVotesLoop_sigVerify]
  · intro hver
    unfold CDelegateVoteTx.CheckTx
    rw [GetAccount_invalidateOwners]
    cases hga : GetAccount cw tx.txUid with
    | none => simp
    | some src =>
      simp only [Option.map_some]
      simp [hver, checkVotesLoop_invalidateOwners env _ cw _ _ hver]
  · intro src hfee huidT hlen hpk hsrc hver hsig
    unfold CDelegateVoteTx.CheckTx
    rw [hfee, if_neg huidT, hsrc, hlen]
    simp [hpk, hver, hsig]
  · intro src v rest a hfee huidT hvotes hlen hpk hsrc hver hsig hvu hw0 hwm hga hreg
    have hnl : ¬ env.maxVoteCandidateNum < tx.candidateVotes.length := Nat.not_lt.2 hlen
    have hlenb : (tx.candidateVotes.isEmpty
        || decide (env.maxVoteCandidateNum < tx.candidateVotes.length)) = false := by
      rw [hvotes]
      rw [hvotes] at hnl
      simpa using Nat.not_lt.1 hnl
    have hwb : (v.votedBcoins == 0 || decide (env.maxCoinMoney < v.votedBcoins)) = false := by
      simp [hw0, Nat.not_lt.2 hwm]
    have hloop : checkVotesLoop env (env.GetFeatureForkVersion height) cw tx.candidateVotes ∅
        = Sum.inl (CheckResult.dos 100 "bad-read-accountdb") := by
      rw [hvotes]
      unfold checkVotesLoop
      rw [if_neg hvu]
      simp [hwb, hga, hver, hreg]
    unfold CDelegateVoteTx.CheckTx
    rw [hfee, if_neg huidT, hsrc]
    rw [hver] at hloop
    simp [hlenb, hpk, hver, hsig, hloop]

/-- Witness for the amended C2, exercising all four parts at concrete inputs:
replacing the signature verifier at version R3 does not change the outcome;
erasing all owner keys at version R3 does not change the outcome; at version
R2 a failing signature gives `bad-signature`; at version R2 an unregistered
candidate gives `bad-read-accountdb`. -/
theorem c2_strong_auth_exactly_at_R2_witness :
    CDelegateVoteTx.CheckTx { envR3BadSig with sigVerify := fun _ => true } 10 txA cwA
      = CDelegateVoteTx.CheckTx envR3BadSig 10 txA cwA
    ∧ CDelegateVoteTx.CheckTx envR3BadSig 10 txA (invalidateOwners cwA)
      = CDelegateVoteTx.CheckTx envR3BadSig 10 txA cwA
    ∧ CDelegateVoteTx.CheckTx envR2BadSig 10 txA cwA = CheckResult.dos 100 "bad-signature"
    ∧ CDelegateVoteTx.CheckTx envR2 10 txA cwB = CheckResult.dos 100 "bad-read-accountdb" :=
  ⟨(c2_strong_auth_exactly_at_R2 envR3BadSig 10 txA cwA).1 (by decide) _,
   (c2_strong_auth_exactly_at_R2 envR3BadSig 10 txA cwA).2.1 (by decide),
   (c2_strong_auth_exactly_at_R2 envR2BadSig 10 txA cwA).2.2.1 acctS
     (by decide) (by decide) (by decide) (by decide) (by decide) (by decide) (by decide),
   (c2_strong_auth_exactly_at_R2 envR2 10 txA cwB).2.2.2 acctS
     ⟨VoteType.ADD_BCOIN, uidD, 1000⟩ [] acctDUnreg
     (by decide) (by decide) rfl (by decide) (by decide) (by decide) (by decide)
     (by decide) (by decide) (by decide) (by decide) (by decide) (by decide)⟩

theorem ProcessDelegateVotes_receipts_length (cw : CCacheWrapper)
    (vs : List CCandidateVote) (l : List CCandidateReceivedVote) :
    (ProcessDelegateVotes cw vs l).2.length = vs.length := by
  induction vs generalizing l with
  | nil => rfl
  | cons v rest ih => simp [ProcessDelegateVotes, ih]

theorem ProcessDelegateVotes_receipts_no_fee (cw : CCacheWrapper)
    (vs : List CCandidateVote) (l : List CCandidateReceivedVote) :
    ∀ r ∈ (ProcessDelegateVotes cw vs l).2, r.kind ≠ ReceiptKind.feeDebit := by
  induction vs generalizing l with
  | nil => simp [ProcessDelegateVotes]
  | cons v rest ih =>
    simp only [ProcessDelegateVotes, List.mem_cons]
    rintro r (rfl | hr)
    · cases hv : v.voteType <;> simp [mergeOneVote, hv]
    · exact ih _ r hr

/-- C3 (amended): the receipt batch stored under the transaction hash by a
successful execute contains exactly one receipt per candidate vote — its net
effect — and no fee-debit receipt; in scenario A a single stake-credit receipt
of 1000 is stored (see the counterexample for the concrete run). -/
theorem c3_receipts_one_per_vote_no_fee (height txIndex : Nat) (tx : CDelegateVoteTx)
    (cw cw' : CCacheWrapper)
    (hok : CDelegateVoteTx.ExecuteTx true height txIndex tx cw = ExecResult.ok cw') :
    ∃ rcpts, alistGet cw'.txReceipts tx.txHash = some rcpts
      ∧ rcpts.length = tx.candidateVotes.length
      ∧ ∀ r ∈ rcpts, r.kind ≠ ReceiptKind.feeDebit := by
  unfold CDelegateVoteTx.ExecuteTx at hok
  cases hm : executeMain height txIndex tx cw with
  | err r cw₁ => rw [hm] at hok; exact absurd hok (by simp)
  | ok cw₁ receipts =>
    rw [hm] at hok
    have hcw' : cw' = { cw₁ with txReceipts := alistSet cw₁.txReceipts tx.txHash receipts } := by
      simpa [SetTxReceipts] using hok.symm
    have hrec : alistGet cw'.txReceipts tx.txHash = some receipts := by
      rw [hcw']
      exact alistGet_alistSet_self _ _ _
    have key : ∃ src₂ : CAccount,
        receipts = (ProcessDelegateVotes cw tx.candidateVotes
          (GetCandidateVotes cw src₂.regid)).2 := by
      unfold executeMain at hm
      cases hga : GetAccount cw tx.txUid with
      | none => simp [hga] at hm
      | some src =>
        simp only [hga] at hm
        cases hob : (GenerateRegID src height txIndex).OperateBalance tx.llFees with
        | none => simp [hob] at hm
        | some src₂ =>
          simp only [hob] at hm
          cases hlp : execVoteLoop
              (SaveAccount
                (SetCandidateVotes cw src₂.regid
                  (ProcessDelegateVotes cw tx.candidateVotes
                    (GetCandidateVotes cw src₂.regid)).1)
                src₂) tx.candidateVotes with
          | inl rcw => simp [hlp] at hm
          | inr cw₃ =>
            simp only [hlp] at hm
            refine ⟨src₂, ?_⟩
            cases hm
            rfl
    obtain ⟨src₂, hr⟩ := key
    refine ⟨receipts, hrec, ?_, ?_⟩
    · rw [hr]; exact ProcessDelegateVotes_receipts_length _ _ _
    · rw [hr]; exact ProcessDelegateVotes_receipts_no_fee _ _ _

/-- Witness for the amended C3: scenario A stores a batch of length one with
no fee-debit receipt. -/
theorem c3_receipts_one_per_vote_no_fee_witness :
    ∃ rcpts, alistGet (CDelegateVoteTx.ExecuteTx true 10 0 txA cwA).stateOf.txReceipts txA.txHash
        = some rcpts
      ∧ rcpts.length = txA.candidateVotes.length
      ∧ ∀ r ∈ rcpts, r.kind ≠ ReceiptKind.feeDebit :=
  c3_receipts_one_per_vote_no_fee 10 0 txA cwA
    ((CDelegateVoteTx.ExecuteTx true 10 0 txA cwA).stateOf) (by decide)

theorem GenerateRegID_keyid (a : CAccount) (height txIndex : Nat) :
    (GenerateRegID a height txIndex).keyid = a.keyid := by
  unfold GenerateRegID; split <;> rfl

theorem GenerateRegID_free (a : CAccount) (height txIndex : Nat) :
    (GenerateRegID a height txIndex).free_bcoins = a.free_bcoins := by
  unfold GenerateRegID; split <;> rfl

theorem OperateBalance_of_le (a : CAccount) (amount : Nat) (h : amount ≤ a.free_bcoins) :
    a.OperateBalance amount = some { a with free_bcoins := a.free_bcoins - amount } := by
  unfold CAccount.OperateBalance
  rw [if_neg (Nat.not_lt.2 h)]

theorem GetAccountByRegID_SaveAccount (cw : CCacheWrapper) (b : CAccount) (rid : CRegID)
    (k : CKeyID) (hget : alistGet cw.regid2keyid rid = some k)
    (hrid : rid ≠ b.regid) (hk : k ≠ b.keyid) :
    GetAccountByRegID (SaveAccount cw b) rid = alistGet cw.accounts k := by
  unfold GetAccountByRegID SaveAccount
  simp only
  have h1 : alistGet
      (if b.regid.IsEmpty then cw.regid2keyid else alistSet cw.regid2keyid b.regid b.keyid) rid
      = some k := by
    split
    · exact hget
    · rw [alistGet_alistSet_ne _ _ _ _ hrid]; exact hget
  rw [h1]
  simp [alistGet_alistSet_ne _ _ _ _ hk]

/-- C5: an unstake whose weight exceeds the candidate's received vote weight
(scenario C takes the stake of this voter, which is all of the received
weight, from 1000 down by 2000) makes `ExecuteTx` fail with
`operate-vote-error`: the subtraction in `StakeVoteBcoins` would underflow. -/
theorem c5_unstake_underflow (b : Bool) (height txIndex : Nat) (tx : CDelegateVoteTx)
    (cw : CCacheWrapper) (rid : CRegID) (w : Nat) (src d : CAccount) (k : CKeyID)
    (hvotes : tx.candidateVotes
      = [{ voteType := VoteType.MINUS_BCOIN, candidateUid := CUserID.regID rid, votedBcoins := w }])
    (hsrc : GetAccount cw tx.txUid = some src)
    (hfee : tx.llFees ≤ src.free_bcoins)
    (hr2k : alistGet cw.regid2keyid rid = some k)
    (hknes : k ≠ src.keyid)
    (hacc : alistGet cw.accounts k = some d)
    (hrne : rid ≠ (GenerateRegID src height txIndex).regid)
    (hlt : d.received_votes < w) :
    (CDelegateVoteTx.ExecuteTx b height txIndex tx cw).reasonOf = some "operate-vote-error" := by
  have hfree : (GenerateRegID src height txIndex).free_bcoins = src.free_bcoins :=
    GenerateRegID_free src height txIndex
  have hob : (GenerateRegID src height txIndex).OperateBalance tx.llFees
      = some { GenerateRegID src height txIndex with
          free_bcoins := (GenerateRegID src height txIndex).free_bcoins - tx.llFees } := by
    apply OperateBalance_of_le
    rw [hfree]; exact hfee
  unfold CDelegateVoteTx.ExecuteTx executeMain
  simp only [hsrc, hob]
  set srcAfter : CAccount := { GenerateRegID src height txIndex with
      free_bcoins := (GenerateRegID src height txIndex).free_bcoins - tx.llFees } with hsa
  have hsark : srcAfter.keyid = src.keyid := by
    rw [hsa]; exact GenerateRegID_keyid src height txIndex
  have hsarr : srcAfter.regid = (GenerateRegID src height txIndex).regid := rfl
  rw [hvotes]
  unfold execVoteLoop
  have hstable : GetAccount
      (SaveAccount
        (SetCandidateVotes cw (GenerateRegID src height txIndex).regid
          (ProcessDelegateVotes cw
            [{ voteType := VoteType.MINUS_BCOIN, candidateUid := CUserID.regID rid,
               votedBcoins := w }]
            (GetCandidateVotes cw (GenerateRegID src height txIndex).regid)).1)
        srcAfter) (CUserID.regID rid) = some d := by
    show GetAccountByRegID _ rid = some d
    rw [GetAccountByRegID_SaveAccount _ _ rid k]
    · exact hacc
    · exact hr2k
    · rw [hsarr]; exact hrne
    · rw [hsark]; exact hknes
  simp only [hstable]
  have hstake : d.StakeVoteBcoins VoteType.MINUS_BCOIN w = none := by
    unfold CAccount.StakeVoteBcoins
    rw [if_pos hlt]
  simp [hstake, ExecResult.reasonOf]

/-- Witness for C5: the concrete scenario C run fails with
`operate-vote-error`. -/
theorem c5_unstake_underflow_witness :
    acctD1000.received_votes < 2000
    ∧ (CDelegateVoteTx.ExecuteTx true 10 0 txC cwC).reasonOf = some "operate-vote-error" :=
  ⟨by decide,
   c5_unstake_underflow true 10 0 txC cwC ⟨1, 2⟩ 2000 acctS acctD1000 2
     rfl (by decide) (by decide) (by decide) (by decide) (by decide) (by decide) (by decide)⟩

theorem sameCandidate_self (cw : CCacheWrapper) (uid : CUserID)
    (h : (resolveCandidateKey cw uid).isSome = true) :
    sameCandidate cw uid uid = true := by
  unfold sameCandidate
  cases hk : resolveCandidateKey cw uid with
  | none => rw [hk] at h; simp at h
  | some k => simp

theorem find?_setCandidateEntry_zero (cw : CCacheWrapper) (l : List CCandidateReceivedVote)
    (uid : CUserID) :
    (setCandidateEntry cw l uid 0).find? (fun e => sameCandidate cw e.candidateUid uid)
      = none := by
  unfold setCandidateEntry
  rw [if_pos rfl]
  rw [List.find?_eq_none]
  intro e he
  have hm := List.mem_filter.1 he
  simpa using hm.2

theorem find?_map_update (cw : CCacheWrapper) (uid : CUserID) (w : Nat)
    (l : List CCandidateReceivedVote) :
    (l.map (fun e => if sameCandidate cw e.candidateUid uid
        then { e with votedBcoins := w } else e)).find?
        (fun e => sameCandidate cw e.candidateUid uid)
      = (l.find? (fun e => sameCandidate cw e.candidateUid uid)).map
          (fun e => { e with votedBcoins := w }) := by
  induction l with
  | nil => rfl
  | cons e t ih =>
    by_cases hp : sameCandidate cw e.candidateUid uid = true
    · simp [List.find?_cons, hp]
    · simp only [Bool.not_eq_true] at hp
      simp [List.find?_cons, hp, ih]

theorem existingWeight_setCandidateEntry (cw : CCacheWrapper) (uid : CUserID) (w : Nat)
    (hw : w ≠ 0) (hself : sameCandidate cw uid uid = true) (l : List CCandidateReceivedVote) :
    existingWeight cw (setCandidateEntry cw l uid w) uid = w := by
  unfold setCandidateEntry
  rw [if_neg hw]
  by_cases hs : (l.find? (fun e => sameCandidate cw e.candidateUid uid)).isSome = true
  · rw [if_pos hs]
    unfold existingWeight
    rw [find?_map_update]
    obtain ⟨e, he⟩ := Option.isSome_iff_exists.1 hs
    rw [he]
    rfl
  · rw [if_neg hs]
    unfold existingWeight
    rw [List.find?_append]
    have hnone : l.find? (fun e => sameCandidate cw e.candidateUid uid) = none := by
      cases h : l.find? (fun e => sameCandidate cw e.candidateUid uid) with
      | none => rfl
      | some e => rw [h] at hs; simp at hs
    rw [hnone]
    simp [List.find?_cons, hself]

/-- C8: the vote-merge algorithm, for each candidate vote processed in
transaction order against the voter's current list: a Stake sets the new
weight to existing weight plus vote weight, an Unstake to the truncated
difference (max of 0 and existing minus vote weight — Nat subtraction); a zero
new weight removes the entry from the list, any other new weight is stored
(inserted or updated); the first conjunct shows the votes are folded in
transaction order, later entries seeing the list updated by earlier ones. -/
theorem c8_vote_merge (cw : CCacheWrapper) (l : List CCandidateReceivedVote)
    (v : CCandidateVote)
    (hres : (resolveCandidateKey cw v.candidateUid).isSome = true) :
    (∀ rest, ProcessDelegateVotes cw (v :: rest) l
      = ((ProcessDelegateVotes cw rest (mergeOneVote cw l v).1).1,
         (mergeOneVote cw l v).2 :: (ProcessDelegateVotes cw rest (mergeOneVote cw l v).1).2))
    ∧ (v.voteType = VoteType.ADD_BCOIN →
        ((existingWeight cw l v.candidateUid + v.votedBcoins = 0 →
           (mergeOneVote cw l v).1.find?
             (fun e => sameCandidate cw e.candidateUid v.candidateUid) = none)
         ∧ (existingWeight cw l v.candidateUid + v.votedBcoins ≠ 0 →
           existingWeight cw (mergeOneVote cw l v).1 v.candidateUid
             = existingWeight cw l v.candidateUid + v.votedBcoins)))
    ∧ (v.voteType = VoteType.MINUS_BCOIN →
        ((existingWeight cw l v.candidateUid - v.votedBcoins = 0 →
           (mergeOneVote cw l v).1.find?
             (fun e => sameCandidate cw e.candidateUid v.candidateUid) = none)
         ∧ (existingWeight cw l v.candidateUid - v.votedBcoins ≠ 0 →
           existingWeight cw (mergeOneVote cw l v).1 v.candidateUid
             = existingWeight cw l v.candidateUid - v.votedBcoins))) := by
  have hself : sameCandidate cw v.candidateUid v.candidateUid = true :=
    sameCandidate_self _ _ hres
  refine ⟨fun rest => rfl, ?_, ?_⟩
  · intro ht
    constructor
    · intro hz
      simp only [mergeOneVote, ht]
      rw [hz]
      exact find?_setCandidateEntry_zero _ _ _
    · intro hnz
      simp only [mergeOneVote, ht]
      exact existingWeight_setCandidateEntry _ _ _ hnz hself l
  · intro ht
    constructor
    · intro hz
      simp only [mergeOneVote, ht]
      rw [hz]
      exact find?_setCandidateEntry_zero _ _ _
    · intro hnz
      simp only [mergeOneVote, ht]
      exact existingWeight_setCandidateEntry _ _ _ hnz hself l

/-- Witness for C8: staking 1000 on candidate D against an empty voter list
stores weight 0 + 1000. -/
theorem c8_vote_merge_witness :
    existingWeight cwA
        (mergeOneVote cwA [] ⟨VoteType.ADD_BCOIN, uidD, 1000⟩).1 uidD
      = existingWeight cwA ([] : List CCandidateReceivedVote) uidD + 1000 :=
  ((c8_vote_merge cwA [] ⟨VoteType.ADD_BCOIN, uidD, 1000⟩ (by decide)).2.1 rfl).2 (by decide)

/-- The canonical key a candidate vote contributes to the duplicate-detection
set: the key-derived address for public-key votes, the stored account key for
registered-id votes (source lines 55-59). -/
def loopKey (cw : CCacheWrapper) (v : CCandidateVote) : CKeyID :=
  match v.candidateUid with
  | CUserID.pubKey pk => pk.GetKeyId
  | _ => ((GetAccount cw v.candidateUid).map CAccount.keyid).getD 0

/-- All per-entry checks of the candidate loop pass for this vote: accepted
identifier kind, weight in range, candidate account present, and (under
`MAJOR_VER_R2`) a registered owner key. -/
def entryOk (env : Env) (ver : FeatureVersion) (cw : CCacheWrapper)
    (v : CCandidateVote) : Bool :=
  decide (v.candidateUid ≠ CUserID.otherUid)
  && !(v.votedBcoins == 0)
  && !decide (env.maxCoinMoney < v.votedBcoins)
  && (GetAccount cw v.candidateUid).isSome
  && (!decide (ver = FeatureVersion.MAJOR_VER_R2)
      || ((GetAccount cw v.candidateUid).map CAccount.HaveOwnerPubKey).getD false)

/-- When every entry passes its per-entry checks, the candidate loop completes
and returns the accumulated set of resolved canonical keys. -/
theorem checkVotesLoop_complete (env : Env) (ver : FeatureVersion) (cw : CCacheWrapper) :
    ∀ (votes : List CCandidateVote) (ks : Finset CKeyID),
    (∀ v ∈ votes, entryOk env ver cw v = true) →
    checkVotesLoop env ver cw votes ks
      = Sum.inr (votes.foldl (fun s v => insert (loopKey cw v) s) ks) := by
  intro votes
  induction votes with
  | nil => intro ks _; rfl
  | cons v rest ih =>
    intro ks hall
    have hv := hall v (List.mem_cons_self _ _)
    simp only [entryOk, Bool.and_eq_true, Bool.or_eq_true, Bool.not_eq_true',
      decide_eq_true_eq, decide_eq_false_iff_not] at hv
    obtain ⟨⟨⟨⟨h1, h2⟩, h3⟩, h4⟩, h5⟩ := hv
    obtain ⟨a, ha⟩ := Option.isSome_iff_exists.1 h4
    have hrest : ∀ u ∈ rest, entryOk env ver cw u = true :=
      fun u hu => hall u (List.mem_cons_of_mem _ hu)
    unfold checkVotesLoop
    rw [if_neg h1]
    have hwb : (v.votedBcoins == 0 || decide (env.maxCoinMoney < v.votedBcoins)) = false := by
      simp [h2, h3]
    rw [hwb]
    simp only [Bool.false_eq_true, if_false, ha]
    have hk : (match v.candidateUid with
        | CUserID.pubKey pk => insert pk.GetKeyId ks
        | _ => insert a.keyid ks) = insert (loopKey cw v) ks := by
      cases hu : v.candidateUid with
      | pubKey pk => simp [loopKey, hu]
      | regID rid =>
        rw [hu] at ha
        simp [loopKey, hu, ha]
      | otherUid => exact absurd hu h1
    have hown : (decide (ver = FeatureVersion.MAJOR_VER_R2) && !a.HaveOwnerPubKey) = false := by
      rcases h5 with h | h
      · simp [h]
      · rw [ha] at h
        simp at h
        simp [h]
    rw [hown]
    simp only [Bool.false_eq_true, if_false, hk]
    rw [ih _ hrest]
    rw [List.foldl_cons]

theorem foldl_insert_eq_union (cw : CCacheWrapper) (votes : List CCandidateVote) :
    ∀ ks : Finset CKeyID,
    votes.foldl (fun s v => insert (loopKey cw v) s) ks
      = ks ∪ (votes.map (loopKey cw)).toFinset := by
  induction votes with
  | nil => intro ks; simp
  | cons v rest ih =>
    intro ks
    rw [List.foldl_cons, ih, List.map_cons, List.toFinset_cons, Finset.union_insert,
      Finset.insert_union]

theorem toFinset_card_lt_of_not_nodup (l : List CKeyID) (h : ¬ l.Nodup) :
    l.toFinset.card < l.length := by
  rw [List.card_toFinset]
  have hsub := l.dedup_sublist
  rcases lt_or_eq_of_le hsub.length_le with hlt | heq
  · exact hlt
  · exact absurd (by rw [← List.dedup_eq_self]; exact hsub.eq_of_length heq) h

/-- C7: when two candidate vote entries resolve to the same canonical account
key — here one via the derived address of its public key and one via the
stored address of the account behind its registered id — the resolved-key set
is strictly smaller than the candidate list length, and `CheckTx` rejects with
`duplication-candidate-error`, even though the two entries use different
identifier kinds. -/
theorem c7_duplicate_cross_kind (env : Env) (height : Nat) (tx : CDelegateVoteTx)
    (cw : CCacheWrapper) (src a : CAccount) (pk : CPubKey) (rid : CRegID)
    (vp vr : CCandidateVote)
    (hfee : env.feeOk tx.llFees = true)
    (huidT : tx.txUid ≠ CUserID.otherUid)
    (hlen : tx.candidateVotes.length ≤ env.maxVoteCandidateNum)
    (hpkv : pubKeyTypeInvalid tx.txUid = false)
    (hsrc : GetAccount cw tx.txUid = some src)
    (hsig : env.GetFeatureForkVersion height = FeatureVersion.MAJOR_VER_R2 →
      env.sigVerify (resolvedSigKey tx src) = true)
    (hall : ∀ v ∈ tx.candidateVotes,
      entryOk env (env.GetFeatureForkVersion height) cw v = true)
    (hvp : vp ∈ tx.candidateVotes) (hvr : vr ∈ tx.candidateVotes) (hne : vp ≠ vr)
    (hvpu : vp.candidateUid = CUserID.pubKey pk)
    (hvru : vr.candidateUid = CUserID.regID rid)
    (ha : GetAccountByRegID cw rid = some a)
    (hkey : a.keyid = pk.GetKeyId) :
    (tx.candidateVotes.map (loopKey cw)).toFinset.card < tx.candidateVotes.length
    ∧ CDelegateVoteTx.CheckTx env height tx cw
        = CheckResult.dos 100 "duplication-candidate-error" := by
  have hkp : loopKey cw vp = pk.GetKeyId := by unfold loopKey; rw [hvpu]
  have hkr : loopKey cw vr = a.keyid := by
    unfold loopKey
    rw [hvru]
    simp [GetAccount, ha]
  have hkeq : loopKey cw vp = loopKey cw vr := by rw [hkp, hkr, hkey]
  have hnodup : ¬ (tx.candidateVotes.map (loopKey cw)).Nodup := fun hnd =>
    hne (List.inj_on_of_nodup_map hnd hvp hvr hkeq)
  have hcard : (tx.candidateVotes.map (loopKey cw)).toFinset.card
      < tx.candidateVotes.length := by
    have := toFinset_card_lt_of_not_nodup _ hnodup
    simpa using this
  refine ⟨hcard, ?_⟩
  have hloop := checkVotesLoop_complete env (env.GetFeatureForkVersion height) cw
    tx.candidateVotes ∅ hall
  have hcardne : (tx.candidateVotes.foldl (fun s v => insert (loopKey cw v) s)
      (∅ : Finset CKeyID)).card ≠ tx.candidateVotes.length := by
    rw [foldl_insert_eq_union]
    simp only [Finset.empty_union]
    exact Nat.ne_of_lt hcard
  have hlenb : (tx.candidateVotes.isEmpty
      || decide (env.maxVoteCandidateNum < tx.candidateVotes.length)) = false := by
    have hne' : tx.candidateVotes ≠ [] := List.ne_nil_of_mem hvp
    simp [hne', Nat.not_lt.2 hlen]
  unfold CDelegateVoteTx.CheckTx
  rw [hfee, if_neg huidT, hsrc]
  by_cases hver : env.GetFeatureForkVersion height = FeatureVersion.MAJOR_VER_R2
  · rw [hver] at hloop
    simp [hlenb, hpkv, hver, hsig hver, hloop, hcardne]
  · simp [hlenb, hpkv, hver, hloop, hcardne]

/-- Witness for C7: a list voting once for D by registered id and once for the
same account by raw public key is rejected as a duplicate. -/
theorem c7_duplicate_cross_kind_witness :
    ([⟨VoteType.ADD_BCOIN, uidD, 500⟩,
      ⟨VoteType.ADD_BCOIN, CUserID.pubKey ⟨2, true⟩, 600⟩] :
        List CCandidateVote).length ≤ envR2.maxVoteCandidateNum
    ∧ CDelegateVoteTx.CheckTx envR2 10
        { txA with candidateVotes :=
            [⟨VoteType.ADD_BCOIN, uidD, 500⟩,
             ⟨VoteType.ADD_BCOIN, CUserID.pubKey ⟨2, true⟩, 600⟩] } cwA
      = CheckResult.dos 100 "duplication-candidate-error" :=
  ⟨by decide,
   (c7_duplicate_cross_kind envR2 10
     { txA with candidateVotes :=
         [⟨VoteType.ADD_BCOIN, uidD, 500⟩,
          ⟨VoteType.ADD_BCOIN, CUserID.pubKey ⟨2, true⟩, 600⟩] } cwA
     acctS acctD ⟨2, true⟩ ⟨1, 2⟩
     ⟨VoteType.ADD_BCOIN, CUserID.pubKey ⟨2, true⟩, 600⟩
     ⟨VoteType.ADD_BCOIN, uidD, 500⟩
     (by decide) (by decide) (by decide) (by decide) (by decide) (by decide)
     (by decide) (by decide) (by decide) (by decide) rfl rfl (by decide)
     (by decide)).2⟩

/-! Infrastructure for the delegate-index claim: set-like count lemmas for the
index operations, well-keyedness of the account store, and stability of
account lookups under saves of other accounts. -/

/-- Number of occurrences of an entry in the delegate index. -/
def countEntry : List (Nat × CRegID) → (Nat × CRegID) → Nat
  | [], _ => 0
  | x :: t, e => (if x = e then 1 else 0) + countEntry t e

@[simp] theorem countEntry_nil (e : Nat × CRegID) : countEntry [] e = 0 := rfl

@[simp] theorem countEntry_cons (x : Nat × CRegID) (t : List (Nat × CRegID))
    (e : Nat × CRegID) :
    countEntry (x :: t) e = (if x = e then 1 else 0) + countEntry t e := rfl

theorem countEntry_eq_zero_of_not_mem {idx : List (Nat × CRegID)} {e : Nat × CRegID}
    (h : e ∉ idx) : countEntry idx e = 0 := by
  induction idx with
  | nil => rfl
  | cons x t ih =>
    simp only [List.mem_cons, not_or] at h
    rw [countEntry_cons, if_neg (fun hEq => h.1 hEq.symm), ih h.2]

theorem countEntry_eq_one_of_nodup_mem {idx : List (Nat × CRegID)} {e : Nat × CRegID}
    (hnd : idx.Nodup) (hm : e ∈ idx) : countEntry idx e = 1 := by
  induction idx with
  | nil => simp at hm
  | cons x t ih =>
    obtain ⟨hx, hnd'⟩ := List.nodup_cons.1 hnd
    rw [countEntry_cons]
    rcases List.mem_cons.1 hm with rfl | hm'
    · rw [if_pos rfl, countEntry_eq_zero_of_not_mem hx]
    · rw [if_neg (fun hEq => hx (by rw [hEq]; exact hm')), ih hnd' hm',
        Nat.zero_add]

theorem countEntry_indexInsert_self (idx : List (Nat × CRegID)) (e : Nat × CRegID)
    (h : idx.Nodup) : countEntry (indexInsert idx e) e = 1 := by
  unfold indexInsert
  split
  · exact countEntry_eq_one_of_nodup_mem h (by assumption)
  · rw [countEntry_cons, if_pos rfl, countEntry_eq_zero_of_not_mem (by assumption)]

theorem countEntry_indexInsert_ne (idx : List (Nat × CRegID)) (e e' : Nat × CRegID)
    (h : e ≠ e') : countEntry (indexInsert idx e) e' = countEntry idx e' := by
  unfold indexInsert
  split
  · rfl
  · rw [countEntry_cons, if_neg h, Nat.zero_add]

theorem countEntry_indexErase_self (idx : List (Nat × CRegID)) (e : Nat × CRegID) :
    countEntry (indexErase idx e) e = 0 := by
  apply countEntry_eq_zero_of_not_mem
  intro hm
  have h := List.mem_filter.1 hm
  simp at h

theorem countEntry_indexErase_ne (idx : List (Nat × CRegID)) (e e' : Nat × CRegID)
    (h : e' ≠ e) : countEntry (indexErase idx e) e' = countEntry idx e' := by
  unfold indexErase
  induction idx with
  | nil => rfl
  | cons x t ih =>
    rw [List.filter_cons]
    by_cases hx : x = e
    · subst hx
      rw [if_neg (by simp)]
      rw [ih, countEntry_cons, if_neg (fun hEq => h hEq.symm), Nat.zero_add]
    · rw [if_pos (by simpa using hx)]
      rw [countEntry_cons, countEntry_cons, ih]

theorem indexInsert_nodup (idx : List (Nat × CRegID)) (e : Nat × CRegID)
    (h : idx.Nodup) : (indexInsert idx e).Nodup := by
  unfold indexInsert
  split
  · exact h
  · exact List.nodup_cons.2 ⟨by assumption, h⟩

theorem indexErase_nodup (idx : List (Nat × CRegID)) (e : Nat × CRegID)
    (h : idx.Nodup) : (indexErase idx e).Nodup := h.filter _

/-- The identifier under which a candidate vote entry is looked up denotes the
given account record directly: for a public-key identifier the derived address
is the account key, for a registered id it is the account regid. -/
def uidMatches (uid : CUserID) (a : CAccount) : Bool :=
  match uid with
  | CUserID.pubKey pk => pk.GetKeyId == a.keyid
  | CUserID.regID rid => rid == a.regid
  | CUserID.otherUid => false

/-- Store invariant: every account record is filed under its own key. -/
def accountsWellKeyed (cw : CCacheWrapper) : Bool :=
  cw.accounts.all (fun p => p.2.keyid == p.1)

/-- A candidate vote paired with the account it resolves to in the given
state. -/
abbrev vaResolved (cw : CCacheWrapper) (p : CCandidateVote × CAccount) : Prop :=
  GetAccount cw p.1.candidateUid = some p.2 ∧ uidMatches p.1.candidateUid p.2 = true

theorem wellKeyed_get (cw : CCacheWrapper) (k : CKeyID) (a : CAccount)
    (hW : accountsWellKeyed cw = true) (h : alistGet cw.accounts k = some a) :
    a.keyid = k := by
  have hmem := alistGet_mem h
  have hall := List.all_eq_true.1 hW _ hmem
  simpa using hall

theorem accountsWellKeyed_SaveAccount (cw : CCacheWrapper) (b : CAccount)
    (hW : accountsWellKeyed cw = true) : accountsWellKeyed (SaveAccount cw b) = true := by
  unfold accountsWellKeyed at hW ⊢
  exact alistSet_all _ _ _ _ hW (by simp)

theorem GetAccount_SaveAccount_of_ne (cw : CCacheWrapper) (b : CAccount) (uid : CUserID)
    (a : CAccount) (hget : GetAccount cw uid = some a) (hm : uidMatches uid a = true)
    (hW : accountsWellKeyed cw = true) (hk : a.keyid ≠ b.keyid) (hr : a.regid ≠ b.regid) :
    GetAccount (SaveAccount cw b) uid = some a := by
  cases uid with
  | pubKey pk =>
    have hpk : pk.GetKeyId = a.keyid := by simpa [uidMatches] using hm
    show alistGet (alistSet cw.accounts b.keyid b) pk.GetKeyId = some a
    rw [alistGet_alistSet_ne]
    · exact hget
    · rw [hpk]; exact hk
  | regID rid =>
    have hrid : rid = a.regid := by simpa [uidMatches] using hm
    have hget' : GetAccountByRegID cw rid = some a := hget
    unfold GetAccountByRegID at hget'
    cases hk2 : alistGet cw.regid2keyid rid with
    | none => rw [hk2] at hget'; simp at hget'
    | some k =>
      rw [hk2] at hget'
      simp only [Option.some_bind] at hget'
      have hak : a.keyid = k := wellKeyed_get cw k a hW hget'
      show GetAccountByRegID (SaveAccount cw b) rid = some a
      rw [GetAccountByRegID_SaveAccount cw b rid k hk2
        (by rw [hrid]; exact hr) (by rw [← hak]; exact hk)]
      exact hget'
  | otherUid => simp [uidMatches] at hm

theorem GetAccount_indexOps (cw : CCacheWrapper) (r : CRegID) (w₁ w₂ : Nat) (uid : CUserID) :
    GetAccount (EraseDelegateVotes (SetDelegateVotes cw r w₁) r w₂) uid
      = GetAccount cw uid := by
  cases uid <;> rfl

theorem StakeVoteBcoins_fields {a a₁ : CAccount} {t : VoteType} {v : Nat}
    (h : a.StakeVoteBcoins t v = some a₁) :
    a₁.keyid = a.keyid ∧ a₁.regid = a.regid := by
  cases t with
  | ADD_BCOIN =>
    simp only [CAccount.StakeVoteBcoins, Option.some.injEq] at h
    rw [← h]
    exact ⟨rfl, rfl⟩
  | MINUS_BCOIN =>
    simp only [CAccount.StakeVoteBcoins] at h
    split at h
    · exact absurd h (by simp)
    · simp only [Option.some.injEq] at h
      rw [← h]
      exact ⟨rfl, rfl⟩
  | NULL_VOTE => simp [CAccount.StakeVoteBcoins] at h

theorem OperateBalance_fields {a a₂ : CAccount} {amt : Nat}
    (h : a.OperateBalance amt = some a₂) : a₂.keyid = a.keyid ∧ a₂.regid = a.regid := by
  unfold CAccount.OperateBalance at h
  split at h
  · exact absurd h (by simp)
  · simp only [Option.some.injEq] at h
    rw [← h]
    exact ⟨rfl, rfl⟩

theorem OperateBalance_some_eq {a a₂ : CAccount} {amt : Nat}
    (h : a.OperateBalance amt = some a₂) :
    a₂ = { a with free_bcoins := a.free_bcoins - amt } := by
  unfold CAccount.OperateBalance at h
  split at h
  · exact absurd h (by simp)
  · simp only [Option.some.injEq] at h
    exact h.symm

/-- The sender account as it stands when the per-candidate loop of `ExecuteTx`
starts: after the lazy regid assignment of step 2 and the fee debit of step 3.
Its received vote weight is still the pre-execution one.  This is the record a
self-vote (the sender naming itself as candidate) reads back in the loop,
because the sender is persisted (source line 107) before the loop runs. -/
def senderAfterFee (src : CAccount) (height txIndex fees : Nat) : CAccount :=
  { GenerateRegID src height txIndex with
    free_bcoins := (GenerateRegID src height txIndex).free_bcoins - fees }

theorem senderAfterFee_received (src : CAccount) (height txIndex fees : Nat) :
    (senderAfterFee src height txIndex fees).received_votes = src.received_votes := by
  unfold senderAfterFee GenerateRegID
  split <;> rfl

/-- The identifier denotes this account record and, once the record is saved,
looking the identifier up returns it: for a public-key identifier the derived
address is the account key; for a registered id it is the account regid, which
must be nonempty for the save to record the id-to-key mapping. -/
def selfResolvable (uid : CUserID) (a : CAccount) : Bool :=
  match uid with
  | CUserID.pubKey pk => pk.GetKeyId == a.keyid
  | CUserID.regID rid => rid == a.regid && !a.regid.IsEmpty
  | CUserID.otherUid => false

theorem selfResolvable_uidMatches (uid : CUserID) (a : CAccount)
    (h : selfResolvable uid a = true) : uidMatches uid a = true := by
  cases uid with
  | pubKey pk => simpa [selfResolvable, uidMatches] using h
  | regID rid =>
    simp only [selfResolvable, Bool.and_eq_true] at h
    simpa [uidMatches] using h.1
  | otherUid => simp [selfResolvable] at h

theorem GetAccount_SaveAccount_self (cw : CCacheWrapper) (b : CAccount) (uid : CUserID)
    (h : selfResolvable uid b = true) : GetAccount (SaveAccount cw b) uid = some b := by
  cases uid with
  | pubKey pk =>
    have hk : pk.GetKeyId = b.keyid := by simpa [selfResolvable] using h
    show alistGet (alistSet cw.accounts b.keyid b) pk.GetKeyId = some b
    rw [hk]
    exact alistGet_alistSet_self _ _ _
  | regID rid =>
    simp only [selfResolvable, Bool.and_eq_true, beq_iff_eq, Bool.not_eq_true'] at h
    obtain ⟨hr, hne⟩ := h
    show GetAccountByRegID (SaveAccount cw b) rid = some b
    unfold GetAccountByRegID SaveAccount
    simp only
    rw [if_neg (by simp [hne]), hr, alistGet_alistSet_self]
    simp only [Option.some_bind]
    exact alistGet_alistSet_self _ _ _
  | otherUid => simp [selfResolvable] at h

/-- Main loop invariant for the per-candidate phase of `ExecuteTx`: on a state
in which every remaining vote resolves to its paired account, with pairwise
distinct account keys and regids and a duplicate-free index, a successful run
of the loop (which inserts each candidate's new index entry before erasing the
old one) leaves the index duplicate-free, does not touch entries of foreign
regids, and for every processed candidate removes the entry of the old weight
and leaves exactly one entry of the new weight. -/
theorem execVoteLoop_index (vas : List (CCandidateVote × CAccount)) :
    ∀ (cw cw' : CCacheWrapper),
    execVoteLoop cw (vas.map Prod.fst) = Sum.inr cw' →
    accountsWellKeyed cw = true →
    (∀ p ∈ vas, vaResolved cw p) →
    (vas.map (fun p => p.2.keyid)).Nodup →
    (vas.map (fun p => p.2.regid)).Nodup →
    cw.delegateIndex.Nodup →
    (cw'.delegateIndex.Nodup
     ∧ (∀ r₀, (∀ p ∈ vas, p.2.regid ≠ r₀) →
         ∀ w, countEntry cw'.delegateIndex (w, r₀) = countEntry cw.delegateIndex (w, r₀))
     ∧ (∀ p ∈ vas, ∃ a₁, p.2.StakeVoteBcoins p.1.voteType p.1.votedBcoins = some a₁
         ∧ (p.2.received_votes ≠ a₁.received_votes →
             countEntry cw'.delegateIndex (p.2.received_votes, p.2.regid) = 0
             ∧ countEntry cw'.delegateIndex (a₁.received_votes, p.2.regid) = 1))) := by
  induction vas with
  | nil =>
    intro cw cw' hloop hW hres hdk hdr hnd
    simp only [List.map_nil] at hloop
    unfold execVoteLoop at hloop
    cases hloop
    exact ⟨hnd, fun r₀ _ w => rfl, by simp⟩
  | cons p rest ih =>
    intro cw cw' hloop hW hres hdk hdr hnd
    obtain ⟨hget, hm⟩ := hres p (List.mem_cons_self _ _)
    simp only [List.map_cons] at hloop
    unfold execVoteLoop at hloop
    cases hstk : p.2.StakeVoteBcoins p.1.voteType p.1.votedBcoins with
    | none => simp [hget, hstk] at hloop
    | some a₁ =>
      simp only [hget, hstk] at hloop
      obtain ⟨hk1, hr1⟩ := StakeVoteBcoins_fields hstk
      set cwStep := SaveAccount
          (EraseDelegateVotes (SetDelegateVotes cw a₁.regid a₁.received_votes)
            a₁.regid p.2.received_votes) a₁ with hcwStep
      have hkx : ∀ q ∈ rest, q.2.keyid ≠ p.2.keyid := by
        intro q hq hEq
        have hnd' := hdk
        rw [List.map_cons] at hnd'
        exact (List.nodup_cons.1 hnd').1 (by rw [← hEq]; exact List.mem_map_of_mem _ hq)
      have hrx : ∀ q ∈ rest, q.2.regid ≠ p.2.regid := by
        intro q hq hEq
        have hnd' := hdr
        rw [List.map_cons] at hnd'
        exact (List.nodup_cons.1 hnd').1 (by rw [← hEq]; exact List.mem_map_of_mem _ hq)
      have hW₁ : accountsWellKeyed cwStep = true := by
        rw [hcwStep]
        exact accountsWellKeyed_SaveAccount _ _ hW
      have hres₁ : ∀ q ∈ rest, vaResolved cwStep q := by
        intro q hq
        obtain ⟨hgq, hmq⟩ := hres q (List.mem_cons_of_mem _ hq)
        refine ⟨?_, hmq⟩
        rw [hcwStep]
        apply GetAccount_SaveAccount_of_ne
        · rw [GetAccount_indexOps]; exact hgq
        · exact hmq
        · exact hW
        · rw [hk1]; exact hkx q hq
        · rw [hr1]; exact hrx q hq
      have hdk₁ : (rest.map (fun p => p.2.keyid)).Nodup := by
        have := hdk; rw [List.map_cons] at this; exact (List.nodup_cons.1 this).2
      have hdr₁ : (rest.map (fun p => p.2.regid)).Nodup := by
        have := hdr; rw [List.map_cons] at this; exact (List.nodup_cons.1 this).2
      have hstepIdx : cwStep.delegateIndex
          = indexErase (indexInsert cw.delegateIndex (a₁.received_votes, a₁.regid))
              (p.2.received_votes, a₁.regid) := by rw [hcwStep]; rfl
      have hnd₁ : cwStep.delegateIndex.Nodup := by
        rw [hstepIdx]
        exact indexErase_nodup _ _ (indexInsert_nodup _ _ hnd)
      obtain ⟨hnd', hframe, hfacts⟩ := ih cwStep cw' hloop hW₁ hres₁ hdk₁ hdr₁ hnd₁
      refine ⟨hnd', ?_, ?_⟩
      · intro r₀ hr₀ w
        have hrest : ∀ q ∈ rest, q.2.regid ≠ r₀ :=
          fun q hq => hr₀ q (List.mem_cons_of_mem _ hq)
        have hpne : a₁.regid ≠ r₀ := by rw [hr1]; exact hr₀ p (List.mem_cons_self _ _)
        rw [hframe r₀ hrest w, hstepIdx]
        rw [countEntry_indexErase_ne _ _ _ (fun hEq => hpne (congrArg Prod.snd hEq).symm)]
        rw [countEntry_indexInsert_ne _ _ _ (fun hEq => hpne (congrArg Prod.snd hEq))]
      · intro q hq
        rcases List.mem_cons.1 hq with rfl | hq'
        · refine ⟨a₁, hstk, fun hch => ?_⟩
          constructor
          · rw [hframe q.2.regid hrx q.2.received_votes, hstepIdx, hr1]
            exact countEntry_indexErase_self _ _
          · rw [hframe q.2.regid hrx a₁.received_votes, hstepIdx, hr1]
            rw [countEntry_indexErase_ne _ _ _
              (fun hEq => hch (congrArg Prod.fst hEq).symm)]
            exact countEntry_indexInsert_self _ _ hnd
        · exact hfacts q hq'

/-- C9: for every candidate touched by a successful execute whose received
weight changed from its pre-execution value to the new value computed by
`StakeVoteBcoins`, the delegate index afterwards holds no entry keyed by the
old weight and the candidate key, and exactly one entry keyed by the new
weight and the candidate key — although the source inserts the new entry
(line 126) before erasing the old one (line 131).  Each vote is paired with
the account record the loop reads for it: either a candidate other than the
sender, resolved in the pre-execution state (its key and regid differ from the
sender, whose record is overwritten before the loop), or — for a self-vote,
which `CheckTx` does not forbid — the sender itself as persisted after the
lazy regid assignment and the fee debit, whose received weight is still the
pre-execution one (`senderAfterFee_received`).  The paired accounts are
pairwise distinct, as the duplicate check of `CheckTx` guarantees, and the
store and index satisfy their structural invariants. -/
theorem c9_delegate_index (b : Bool) (height txIndex : Nat) (tx : CDelegateVoteTx)
    (cw cw' : CCacheWrapper) (src : CAccount) (vas : List (CCandidateVote × CAccount))
    (hok : CDelegateVoteTx.ExecuteTx b height txIndex tx cw = ExecResult.ok cw')
    (hvotes : tx.candidateVotes = vas.map Prod.fst)
    (hW : accountsWellKeyed cw = true)
    (hsrc : GetAccount cw tx.txUid = some src)
    (hres : ∀ p ∈ vas,
      (GetAccount cw p.1.candidateUid = some p.2
        ∧ uidMatches p.1.candidateUid p.2 = true
        ∧ p.2.keyid ≠ src.keyid
        ∧ p.2.regid ≠ (GenerateRegID src height txIndex).regid)
      ∨ (p.2 = senderAfterFee src height txIndex tx.llFees
        ∧ selfResolvable p.1.candidateUid p.2 = true))
    (hdk : (vas.map (fun p => p.2.keyid)).Nodup)
    (hdr : (vas.map (fun p => p.2.regid)).Nodup)
    (hnd : cw.delegateIndex.Nodup) :
    ∀ p ∈ vas, ∃ a₁, p.2.StakeVoteBcoins p.1.voteType p.1.votedBcoins = some a₁
      ∧ (p.2.received_votes ≠ a₁.received_votes →
          countEntry cw'.delegateIndex (p.2.received_votes, p.2.regid) = 0
          ∧ countEntry cw'.delegateIndex (a₁.received_votes, p.2.regid) = 1) := by
  unfold CDelegateVoteTx.ExecuteTx at hok
  cases hm : executeMain height txIndex tx cw with
  | err r cw₁ => rw [hm] at hok; exact absurd hok (by simp)
  | ok cw₁ receipts =>
    rw [hm] at hok
    simp only [ExecResult.ok.injEq] at hok
    have hidx : cw'.delegateIndex = cw₁.delegateIndex := by
      rw [← hok]
      exact SetTxReceipts_delegateIndex b cw₁ tx.txHash receipts
    unfold executeMain at hm
    simp only [hsrc] at hm
    cases hob : (GenerateRegID src height txIndex).OperateBalance tx.llFees with
    | none => simp [hob] at hm
    | some src₂ =>
      simp only [hob] at hm
      cases hlp : execVoteLoop
          (SaveAccount
            (SetCandidateVotes cw src₂.regid
              (ProcessDelegateVotes cw tx.candidateVotes
                (GetCandidateVotes cw src₂.regid)).1)
            src₂) tx.candidateVotes with
      | inl rcw => simp [hlp] at hm
      | inr cw₃ =>
        simp only [hlp, ExecOutcome.ok.injEq] at hm
        have hfields := OperateBalance_fields hob
        have hk2 : src₂.keyid = src.keyid := by
          rw [hfields.1, GenerateRegID_keyid]
        have hr2 : src₂.regid = (GenerateRegID src height txIndex).regid := hfields.2
        set cwMid := SaveAccount
            (SetCandidateVotes cw src₂.regid
              (ProcessDelegateVotes cw tx.candidateVotes
                (GetCandidateVotes cw src₂.regid)).1)
            src₂ with hcwMid
        have hW₂ : accountsWellKeyed cwMid = true := by
          rw [hcwMid]
          exact accountsWellKeyed_SaveAccount _ _ hW
        have hsae : senderAfterFee src height txIndex tx.llFees = src₂ :=
          (OperateBalance_some_eq hob).symm
        have hres₂ : ∀ p ∈ vas, vaResolved cwMid p := by
          intro p hp
          rcases hres p hp with ⟨hgp, hmp, hkp, hrp⟩ | ⟨hpe, hsf⟩
          · refine ⟨?_, hmp⟩
            rw [hcwMid]
            apply GetAccount_SaveAccount_of_ne
            · rw [GetAccount_SetCandidateVotes]; exact hgp
            · exact hmp
            · exact hW
            · rw [hk2]; exact hkp
            · rw [hr2]; exact hrp
          · have hp2 : p.2 = src₂ := by rw [hpe, hsae]
            refine ⟨?_, selfResolvable_uidMatches _ _ hsf⟩
            rw [hcwMid, hp2]
            exact GetAccount_SaveAccount_self _ _ _ (by rw [← hp2]; exact hsf)
        have hnd₂ : cwMid.delegateIndex.Nodup := hnd
        rw [hvotes] at hlp
        obtain ⟨-, -, hfacts⟩ := execVoteLoop_index vas cwMid cw₃ hlp hW₂ hres₂ hdk hdr hnd₂
        intro p hp
        obtain ⟨a₁, hstk, hcnt⟩ := hfacts p hp
        refine ⟨a₁, hstk, fun hch => ?_⟩
        have hfin : cw'.delegateIndex = cw₃.delegateIndex := by
          rw [hidx, ← hm.1]
        rw [hfin]
        exact hcnt hch

/-- A self-vote transaction: the sender S stakes 1000 on itself. -/
def txSelf : CDelegateVoteTx :=
  { txUid := uidS, llFees := 100
    candidateVotes := [⟨VoteType.ADD_BCOIN, uidS, 1000⟩], txHash := 8 }

/-- Witness for C9, exercising both hypothesis branches: in scenario A the
candidate D moves from weight 0 to 1000 and afterwards the index holds no
(0, D) entry and exactly one (1000, D) entry; and in a self-vote transaction
the sender S itself moves from weight 0 to 1000 with the same index facts. -/
theorem c9_delegate_index_witness :
    (∃ a₁, acctD.StakeVoteBcoins VoteType.ADD_BCOIN 1000 = some a₁
      ∧ (acctD.received_votes ≠ a₁.received_votes →
          countEntry (CDelegateVoteTx.ExecuteTx true 10 0 txA cwA).stateOf.delegateIndex
            (acctD.received_votes, acctD.regid) = 0
          ∧ countEntry (CDelegateVoteTx.ExecuteTx true 10 0 txA cwA).stateOf.delegateIndex
            (a₁.received_votes, acctD.regid) = 1))
    ∧ (∃ a₁, (senderAfterFee acctS 10 0 100).StakeVoteBcoins VoteType.ADD_BCOIN 1000 = some a₁
      ∧ ((senderAfterFee acctS 10 0 100).received_votes ≠ a₁.received_votes →
          countEntry (CDelegateVoteTx.ExecuteTx true 10 0 txSelf cwA).stateOf.delegateIndex
            ((senderAfterFee acctS 10 0 100).received_votes,
              (senderAfterFee acctS 10 0 100).regid) = 0
          ∧ countEntry (CDelegateVoteTx.ExecuteTx true 10 0 txSelf cwA).stateOf.delegateIndex
            (a₁.received_votes, (senderAfterFee acctS 10 0 100).regid) = 1)) :=
  ⟨c9_delegate_index true 10 0 txA cwA
    ((CDelegateVoteTx.ExecuteTx true 10 0 txA cwA).stateOf) acctS
    [(⟨VoteType.ADD_BCOIN, uidD, 1000⟩, acctD)]
    (by decide) rfl (by decide) (by decide) (by decide) (by decide) (by decide)
    (by decide)
    (⟨VoteType.ADD_BCOIN, uidD, 1000⟩, acctD) (by decide),
   c9_delegate_index true 10 0 txSelf cwA
    ((CDelegateVoteTx.ExecuteTx true 10 0 txSelf cwA).stateOf) acctS
    [(⟨VoteType.ADD_BCOIN, uidS, 1000⟩, senderAfterFee acctS 10 0 100)]
    (by decide) rfl (by decide) (by decide) (by decide) (by decide) (by decide)
    (by decide)
    (⟨VoteType.ADD_BCOIN, uidS, 1000⟩, senderAfterFee acctS 10 0 100) (by decide)⟩

end WaykiChain
